import Mathlib

/-!
# Verification of the FFPE format-decoding engine

Shallow embedding of the FFPE electrochemical-file decoders (`src/FFPE`)
and proofs about the step/half-cycle reconstruction algorithm, bit-field
extraction, the Neware NDA and NDAX decoders, and the BioLogic MPR decoder.

Conventions used throughout:
* Bytes are `Nat` values in `[0, 256)`; byte buffers are `List Nat`.
* numpy floating-point columns are modelled by the raw little-endian bit
  pattern of the underlying bytes (a `Nat`); `struct.unpack` is a function
  of those bytes, so equal raw patterns decode to equal values.
* Fallible Python code (assert, IndexError, AttributeError, ValueError)
  is modelled with `Except String`.
* Out-of-range byte reads are modelled as 0 (Python raises there; the
  properties below only exercise in-range reads).
-/

set_option maxRecDepth 2000

namespace FFPE

/-! ## FFPE/Util/common.py — primitive decode utilities -/

/-- Embeds `data[i]` for a byte buffer. -/
def byteAt (data : List Nat) (i : Nat) : Nat := data.getD i 0

/-- Little-endian value of the `sz` bytes starting at `off`; embeds
`struct.unpack` of a little-endian numeric field as a raw bit pattern
(`getFieldFlat` in FFPE/Util/common.py). -/
def leAt (data : List Nat) (off sz : Nat) : Nat :=
  (List.range sz).foldr (fun k acc => acc * 256 + byteAt data (off + k)) 0

/-- Embeds `getBitField` from FFPE/Util/common.py:
`(bt >> bitPos) % (1 << fieldSize)`. -/
def getBitField (bt bitPos fieldSize : Nat) : Nat :=
  (bt >>> bitPos) % (1 <<< fieldSize)

/-- Embeds `np.diff`: `d[i] = s[i+1] - s[i]`. -/
def npDiff (s : List Int) : List Int := List.zipWith (fun a b => b - a) s s.tail

/-- Embeds `np.where(l != 0)[0]`: the indices of the nonzero entries, in order. -/
def npWhereNonzero (l : List Int) : List Nat :=
  (List.range l.length).filter (fun i => l.getD i 0 != 0)

/-- Embeds `findStepChanges` from FFPE/Util/common.py:
`np.concatenate(([0], np.where(np.diff(step_series) != 0)[0] + 1))`. -/
def findStepChanges (s : List Int) : List Nat :=
  0 :: (npWhereNonzero (npDiff s)).map (· + 1)

/-- The specification-side description of `findStepChanges`: the sorted set
consisting of 0 together with every index `i > 0` where `s[i] ≠ s[i-1]`
(a filtered `List.range` is sorted and mentions each index once). -/
def stepChangeSpec (s : List Int) : List Nat :=
  (List.range s.length).filter (fun i => i == 0 || s.getD i 0 != s.getD (i - 1) 0)

theorem npDiff_length (s : List Int) : (npDiff s).length = s.length - 1 := by
  cases s with
  | nil => rfl
  | cons a t => simp [npDiff, List.length_zipWith]

theorem npDiff_getD (s : List Int) (i : Nat) (h : i + 1 < s.length) :
    (npDiff s).getD i 0 = s.getD (i + 1) 0 - s.getD i 0 := by
  induction s generalizing i with
  | nil => simp at h
  | cons a t ih =>
    cases t with
    | nil => simp at h
    | cons b u =>
      cases i with
      | zero => simp [npDiff]
      | succ j =>
        have hj : j + 1 < (b :: u).length := by
          simpa using Nat.lt_of_succ_lt_succ h
        have := ih j hj
        simpa [npDiff] using this

/-- C5 core computation: `findStepChanges` equals its specification-side
characterisation on every non-empty series. -/
theorem findStepChanges_eq_spec (s : List Int) (hs : s ≠ []) :
    findStepChanges s = stepChangeSpec s := by
  obtain ⟨a, t, rfl⟩ := List.exists_cons_of_ne_nil hs
  unfold findStepChanges stepChangeSpec npWhereNonzero
  have h0 : (((0:Nat) == 0 || (a :: t).getD 0 0 != (a :: t).getD (0 - 1) 0)) = true := by
    simp
  rw [show (a :: t).length = t.length + 1 from rfl, List.range_succ_eq_map,
    List.filter_cons, h0]
  simp only [if_true]
  rw [List.filter_map, npDiff_length]
  simp only [List.length_cons, Nat.add_sub_cancel]
  rw [show (Nat.succ : Nat → Nat) = fun i => i + 1 from funext fun _ => rfl]
  refine congrArg (List.cons 0) (congrArg (List.map fun i => i + 1) (List.filter_congr ?_))
  intro i hi
  have hilt : i < t.length := List.mem_range.mp hi
  have hd := npDiff_getD (a :: t) i (by simpa using Nat.succ_lt_succ hilt)
  simp only [Function.comp]
  have h1 : ((i + 1 : Nat) == 0) = false := by simp
  simp only [h1, Bool.false_or, Nat.add_sub_cancel]
  rw [hd, Bool.eq_iff_iff]
  simp [sub_eq_zero]

/-- Claim C5: for every non-empty step-index series, `findStepChanges`
returns exactly the sorted set consisting of index 0 together with every
index `i > 0` at which `series[i] ≠ series[i-1]`. -/
theorem C5_findStepChanges_exact (s : List Int) (hs : s ≠ []) :
    findStepChanges s =
      (List.range s.length).filter (fun i => i == 0 || s.getD i 0 != s.getD (i - 1) 0) :=
  findStepChanges_eq_spec s hs

/-- Witness for C5 at the concrete series `[5, 5, 7, 7]`. -/
theorem C5_witness :
    findStepChanges [5, 5, 7, 7] =
      (List.range (4:Nat)).filter
        (fun i => i == 0 || ([5, 5, 7, 7] : List Int).getD i 0 != ([5, 5, 7, 7] : List Int).getD (i - 1) 0) :=
  C5_findStepChanges_exact [5, 5, 7, 7] (by decide)

/-! ## FFPE/Util/common.py — step-to-global reconstruction -/

/-- Embeds `np.cumsum`: inclusive running sums. -/
def npCumsum (l : List Int) : List Int := (l.scanl (· + ·) 0).tail

/-- Embeds `np.searchsorted(a, x, side = "right")` for a sorted `a`: the number of
elements of `a` that are `≤ x`. -/
def searchsortedRight (a : List Int) (x : Int) : Nat :=
  a.countP (fun v => v ≤ x)

/-- Embeds `np.arange(N)` as signed values. -/
def npArange (N : Nat) : List Int := (List.range N).map Int.ofNat

/-- numpy integer indexing `l[k]` with negative-index wraparound. -/
def npIndex (l : List Int) (k : Int) : Int :=
  if k < 0 then l.getD (l.length - (-k).toNat) 0 else l.getD k.toNat 0

/-- Embeds `convertIndices` from FFPE/Util/common.py (identical in
FFPE/Neware/constants.py): `searchsorted(change_idcs, arr, "right") - 1`. -/
def convertIndices (arr : List Int) (change_idcs : List Int) : List Int :=
  arr.map (fun x => (searchsortedRight change_idcs x : Int) - 1)

/-- The `step_finals` array of `convertStepToGlobal`: the final step-local
value of the segment before each boundary (0 where there is no previous
segment, i.e. where `prestep_indices` is negative). -/
def stepFinals (arr : List Int) (change_idcs : List Int) : List Int :=
  (change_idcs.map (fun c => c - 1)).map
    (fun p => if 0 ≤ p then arr.getD p.toNat 0 else 0)

/-- Embeds `convertStepToGlobal` from FFPE/Util/common.py: accumulate step-local
values into experiment-global ones, `step_globals[step_indices] + arr`. -/
def convertStepToGlobal (arr : List Int) (change_idcs : List Int) : List Int :=
  (List.range arr.length).map (fun i =>
    npIndex (npCumsum (stepFinals arr change_idcs))
      ((convertIndices (npArange arr.length) change_idcs).getD i 0) +
    arr.getD i 0)

/-- numpy slice assignment `r[lo:hi] = a + series[lo:hi]` (hi clamped). -/
def overwriteRange (r series : List Int) (a : Int) (lo hi : Nat) : List Int :=
  (List.range r.length).map (fun i =>
    if lo ≤ i ∧ i < hi then a + series.getD i 0 else r.getD i 0)

/-- Embeds `accumulateSeriesSteps` from FFPE/Neware/NDAff.py: the loop over
`change_indices` that fills `r` segment by segment, accumulating each
segment's final value into `a`. -/
def accumulateSeriesSteps (series : List Int) (change_indices : List Nat) : List Int :=
  let N := series.length
  let step := fun (st : List Int × Int × Nat) (c : Nat) =>
    (overwriteRange st.1 series st.2.1 st.2.2 (c + 1), st.2.1 + series.getD c 0, c + 1)
  let fin := change_indices.foldl step (List.replicate N 0, (0 : Int), (0 : Nat))
  overwriteRange fin.1 series fin.2.1 fin.2.2 N

theorem getD_replicate_zero (n i : Nat) : (List.replicate n (0:Int)).getD i 0 = 0 := by
  rw [List.getD_eq_getElem?_getD, List.getElem?_replicate]
  split <;> rfl

theorem list_tabulate_getD (l : List Int) :
    (List.range l.length).map (fun i => l.getD i 0) = l := by
  induction l with
  | nil => rfl
  | cons a t ih =>
    rw [show (a :: t).length = t.length + 1 from rfl, List.range_succ_eq_map,
      List.map_cons, List.map_map, List.getD_cons_zero]
    refine congrArg (List.cons a) ?_
    rw [show ((fun i => (a :: t).getD i 0) ∘ Nat.succ) = fun i => t.getD i 0 from
      funext fun i => rfl]
    exact ih

/-- Claim C6: a series with exactly one segment is returned unchanged by the
step-local-to-experiment-global accumulation: `convertStepToGlobal` with
the single boundary `[0]` and `accumulateSeriesSteps` with no interior
change index both act as the identity (the prefix sum over zero prior
segment totals is zero). -/
theorem C6_one_segment_identity (arr : List Int) :
    convertStepToGlobal arr [0] = arr ∧ accumulateSeriesSteps arr [] = arr := by
  constructor
  · unfold convertStepToGlobal
    have hsf : stepFinals arr [0] = [0] := by
      unfold stepFinals
      norm_num
    rw [hsf]
    have hglob : npCumsum [0] = [0] := rfl
    rw [hglob]
    have hconv : convertIndices (npArange arr.length) [0] =
        List.replicate arr.length 0 := by
      unfold convertIndices searchsortedRight npArange
      rw [List.map_map]
      have hfun : ((fun x : Int => ((List.countP (fun v => decide (v ≤ x)) [0] : Nat) : Int) - 1) ∘
          Int.ofNat) = fun _ : Nat => (0 : Int) := by
        funext i
        have h1 : List.countP (fun v : Int => decide (v ≤ Int.ofNat i)) [0] = 1 := by
          simp [Int.ofNat_nonneg]
        simp only [Function.comp]
        rw [h1]
        norm_num
      rw [hfun, List.map_const', List.length_range]
    rw [hconv]
    have hmap : (List.range arr.length).map (fun i =>
        npIndex [0] ((List.replicate arr.length (0:Int)).getD i 0) + arr.getD i 0) =
        (List.range arr.length).map (fun i => arr.getD i 0) := by
      apply List.map_congr_left
      intro i _
      rw [getD_replicate_zero]
      simp [npIndex]
    rw [hmap, list_tabulate_getD]
  · unfold accumulateSeriesSteps
    simp only [List.foldl_nil]
    unfold overwriteRange
    rw [List.length_replicate]
    have : (List.range arr.length).map (fun i =>
        if 0 ≤ i ∧ i < arr.length then 0 + arr.getD i 0 else (List.replicate arr.length (0:Int)).getD i 0) =
        (List.range arr.length).map (fun i => arr.getD i 0) := by
      apply List.map_congr_left
      intro i hi
      have : 0 ≤ i ∧ i < arr.length := ⟨Nat.zero_le i, List.mem_range.mp hi⟩
      simp [this]
    rw [this, list_tabulate_getD]

/-! ## Bit-field extraction round-trip (`getBitField`) -/

/-- The bit positions covered by a `(bitOffset, bitWidth)` field. -/
def fieldBits (p : Nat × Nat) : List Nat := (List.range p.2).map (fun k => p.1 + k)

/-- Re-derivation of a byte from extracted bit-fields: shift each
`getBitField` value back to its bit offset and sum. -/
def reassemble (b : Nat) (fs : List (Nat × Nat)) : Nat :=
  (fs.map (fun p => getBitField b p.1 p.2 * 2 ^ p.1)).sum

theorem getBitField_shift (b w off : Nat) :
    getBitField b off w * 2 ^ off =
      ((fieldBits (off, w)).map (fun j => b / 2 ^ j % 2 * 2 ^ j)).sum := by
  induction w generalizing off with
  | zero => simp [getBitField, fieldBits, Nat.mod_one]
  | succ w ih =>
    have hshift : getBitField b off (w + 1) = b / 2 ^ off % (2 ^ w * 2) := by
      rw [getBitField, Nat.shiftRight_eq_div_pow, Nat.shiftLeft_eq, one_mul, pow_succ]
    have hsplit : b / 2 ^ off % (2 ^ w * 2) =
        b / 2 ^ off % 2 + 2 * (b / 2 ^ (off + 1) % 2 ^ w) := by
      rw [mul_comm (2 ^ w) 2, Nat.mod_mul]
      have : b / 2 ^ off / 2 = b / 2 ^ (off + 1) := by
        rw [Nat.div_div_eq_div_mul, pow_succ]
      rw [this]
    have hbits : fieldBits (off, w + 1) =
        off :: fieldBits (off + 1, w) := by
      unfold fieldBits
      rw [List.range_succ_eq_map, List.map_cons, List.map_map]
      refine congrArg (List.cons (off + 0)) ?_
      refine congrArg₂ List.map ?_ rfl
      funext k
      simp [Function.comp, Nat.succ_eq_add_one]
      omega
    rw [hshift, hsplit, hbits, List.map_cons, List.sum_cons, ← ih (off + 1)]
    have hgb : getBitField b (off + 1) w = b / 2 ^ (off + 1) % 2 ^ w := by
      rw [getBitField, Nat.shiftRight_eq_div_pow, Nat.shiftLeft_eq, one_mul]
    rw [hgb]
    ring

theorem bit_sum_range (b n : Nat) :
    ((List.range n).map (fun j => b / 2 ^ j % 2 * 2 ^ j)).sum = b % 2 ^ n := by
  induction n with
  | zero => simp [Nat.mod_one]
  | succ n ih =>
    rw [List.range_succ, List.map_append, List.sum_append, ih]
    simp only [List.map_cons, List.map_nil, List.sum_cons, List.sum_nil]
    rw [pow_succ, Nat.mod_mul]
    ring

theorem reassemble_eq_bits (b : Nat) (fs : List (Nat × Nat)) :
    reassemble b fs = ((fs.flatMap fieldBits).map (fun j => b / 2 ^ j % 2 * 2 ^ j)).sum := by
  induction fs with
  | nil => rfl
  | cons p t ih =>
    rw [reassemble, List.map_cons, List.sum_cons, List.flatMap_cons, List.map_append,
      List.sum_append, ← ih, getBitField_shift]
    rfl

/-- Claim C7: for every byte value `b < 256` and every partition of the bit
positions 0..7 into non-overlapping bit-fields (their covered positions,
taken together, are a permutation of 0..7), extracting each field with
`getBitField` and reassembling by shifting each value back to its offset
and summing reproduces `b`. -/
theorem C7_bitfield_partition_roundtrip (b : Nat) (fs : List (Nat × Nat))
    (hb : b < 256) (hp : (fs.flatMap fieldBits).Perm (List.range 8)) :
    reassemble b fs = b := by
  rw [reassemble_eq_bits]
  rw [(hp.map (fun j => b / 2 ^ j % 2 * 2 ^ j)).sum_eq, bit_sum_range]
  exact Nat.mod_eq_of_lt (by norm_num at hb ⊢; exact hb)

/-- Witness for C7: the byte 171 split into fields at offsets 3, 0 and 5
of widths 2, 3 and 3. -/
theorem C7_witness :
    (171 : Nat) < 256 ∧ reassemble 171 [(3, 2), (0, 3), (5, 3)] = 171 :=
  ⟨by norm_num,
    C7_bitfield_partition_roundtrip 171 [(3, 2), (0, 3), (5, 3)] (by norm_num) (by decide)⟩

/-! ## FFPE/Neware/constants.py — step types and half-cycle detection -/

/-- Embeds `STEP_TYPES`: mode number → mode name (`none` entries are unused). -/
def STEP_TYPES : List (Option String) :=
  [none, some "CC_charge", some "CC_discharge", some "CV_charge", some "Rest",
    some "Loop", some "Stop", some "CCCV_charge", some "CP_discharge",
    some "CP_charge", none, none, some "Pause", none, none, some "Pulse",
    some "SIM", none, some "CV_discharge", some "CCCV_discharge",
    some "Control", some "OCV", none, none, none, some "CPCV_discharge",
    some "CPCV_charge"]

/-- Embeds `DEFAULT_HALF_STEP_TRIGGERS`: the current-passing trigger modes. -/
def DEFAULT_HALF_STEP_TRIGGERS : List String :=
  ["CC_charge", "CC_discharge", "CV_charge", "CCCV_charge", "CP_discharge",
    "CP_charge", "CV_discharge", "CCCV_discharge", "CPCV_discharge",
    "CPCV_charge"]

/-- Embeds `STEP_TYPES.index(trigger)`. -/
def stepTypeNum (name : String) : Nat := STEP_TYPES.findIdx (· == some name)

/-- Embeds `np.where(arr == v)[0]`. -/
def npWhereEqNat (arr : List Nat) (v : Nat) : List Nat :=
  (List.range arr.length).filter (fun i => arr.getD i 0 == v)

/-- Embeds `hot_indices[np.where(np.diff(np.concatenate(([-1], hot_indices))) != 1)[0]]`:
keep the start index of each maximal run of consecutive hot indices. -/
def runStarts (hot : List Nat) : List Nat :=
  ((List.range hot.length).filter
    (fun i => (npDiff ((-1) :: hot.map Int.ofNat)).getD i 0 != 1)).map
    (fun i => hot.getD i 0)

/-- Insertion sort, embedding `np.sort`. -/
def insertSorted [LinearOrder α] (x : α) : List α → List α
  | [] => [x]
  | y :: ys => if x ≤ y then x :: y :: ys else y :: insertSorted x ys

def npSort [LinearOrder α] (l : List α) : List α := l.foldr insertSorted []

/-- Embeds `findHalfCycleChanges` from FFPE/Neware/constants.py, with the default
trigger list: for each trigger mode, the starts of maximal runs of that
mode, sorted together. -/
def findHalfCycleChanges (step_series : List Nat) : List Nat :=
  npSort ((DEFAULT_HALF_STEP_TRIGGERS.map
    (fun trigger => runStarts (npWhereEqNat step_series (stepTypeNum trigger)))).flatten)

/-- Embeds `findSegmentChanges` from FFPE/Util/common.py: like
`findHalfCycleChanges` but over caller-supplied numeric triggers and with
a leading -1 sentinel. -/
def findSegmentChanges (arr : List Nat) (triggers : List Nat) : List Int :=
  npSort ((-1) :: (triggers.map
    (fun t => (runStarts (npWhereEqNat arr t)).map Int.ofNat)).flatten)

/-- Claim C8: on the step-mode sequence
`[Rest, CC_charge, CC_charge, Rest, CC_discharge]` half-cycle change
detection yields boundaries exactly at index 1 (the first `CC_charge`) and
index 4 (the `CC_discharge`), and not at index 2 (the second `CC_charge`):
an uninterrupted run of one trigger mode starts a single half-cycle.
`findSegmentChanges` (the FFPE/Util/common.py variant) additionally
prefixes the -1 sentinel. -/
theorem C8_half_cycle_boundaries :
    findHalfCycleChanges
      [stepTypeNum "Rest", stepTypeNum "CC_charge", stepTypeNum "CC_charge",
        stepTypeNum "Rest", stepTypeNum "CC_discharge"] = [1, 4] ∧
    findSegmentChanges [4, 1, 1, 4, 2] (DEFAULT_HALF_STEP_TRIGGERS.map stepTypeNum) =
      [-1, 1, 4] := by
  constructor
  · decide
  · decide

/-! ## FFPE/Neware/NDAff.py — NDA record filtering -/

/-- Embeds `STATUS_SUCCESS` from FFPE/Neware/NDAff.py. -/
def STATUS_SUCCESS : Nat := 0

/-- One decoded row of `NDA_RECORD_INFO` (integer-valued raw fields;
unit conversions multiply by constants and do not touch `status` or
`record_no`; the checksum column is deleted before filtering). -/
structure NdaRecord where
  status : Nat
  record_no : Nat
  cycle_number : Nat
  ns : Nat
  mode : Nat
  step_time : Nat
  ewe : Int
  current : Int
  temperature : Int
  q_charge_discharge : Int
  energy_charge_discharge : Int
  clock_time : Nat
deriving DecidableEq

/-- The row-validity step of `fromFile` in FFPE/Neware/NDAff.py:
`dataframe.loc[dataframe["status"] == STATUS_SUCCESS]` — keep exactly the
rows whose status equals success; every column (including the `record_no`
values decoded before filtering) rides along unchanged. -/
def ndaRetainValidRows (rows : List NdaRecord) : List NdaRecord :=
  rows.filter (fun r => r.status == STATUS_SUCCESS)

/-- Claim C9: for every NDA record array consisting of a run of
status-success rows followed by a status-failure row, the decoder retains
exactly the success rows, drops only the failing row, and preserves each
retained row's original `record_no` (no renumbering; gaps allowed). -/
theorem C9_nda_status_filter (run : List NdaRecord) (bad : NdaRecord)
    (hrun : ∀ r ∈ run, r.status = STATUS_SUCCESS)
    (hbad : bad.status ≠ STATUS_SUCCESS) :
    ndaRetainValidRows (run ++ [bad]) = run ∧
    (ndaRetainValidRows (run ++ [bad])).map NdaRecord.record_no =
      run.map NdaRecord.record_no := by
  have hkeep : ndaRetainValidRows (run ++ [bad]) = run := by
    unfold ndaRetainValidRows
    rw [List.filter_append]
    have h1 : run.filter (fun r => r.status == STATUS_SUCCESS) = run :=
      List.filter_eq_self.mpr (fun r hr => by simp [hrun r hr])
    have h2 : [bad].filter (fun r => r.status == STATUS_SUCCESS) = [] := by
      simp [List.filter_cons, hbad]
    rw [h1, h2, List.append_nil]
  exact ⟨hkeep, by rw [hkeep]⟩

/-- Witness for C9: two success rows (record numbers 1 and 2) followed by
one failing row (status 1, record number 3). -/
theorem C9_witness :
    ndaRetainValidRows
        [⟨0, 1, 0, 1, 4, 10, 35000, 0, 25, 0, 0, 100⟩,
          ⟨0, 2, 0, 1, 4, 20, 35001, 0, 25, 0, 0, 101⟩,
          ⟨1, 3, 0, 1, 4, 30, 35002, 0, 25, 0, 0, 102⟩] =
      [⟨0, 1, 0, 1, 4, 10, 35000, 0, 25, 0, 0, 100⟩,
        ⟨0, 2, 0, 1, 4, 20, 35001, 0, 25, 0, 0, 101⟩] :=
  (C9_nda_status_filter
    [⟨0, 1, 0, 1, 4, 10, 35000, 0, 25, 0, 0, 100⟩,
      ⟨0, 2, 0, 1, 4, 20, 35001, 0, 25, 0, 0, 101⟩]
    ⟨1, 3, 0, 1, 4, 30, 35002, 0, 25, 0, 0, 102⟩
    (by decide) (by decide)).1

/-! ## FFPE/Neware/NDAXff.py — paged archive extraction -/

/-- Embeds `PAGE_SIZE = 0x1000`. -/
def PAGE_SIZE : Nat := 4096

/-- Embeds `NDAX_PAGE_BITMAP_SZ`. -/
def NDAX_PAGE_BITMAP_SZ : Nat := 128

/-- Embeds `NDAX_PAGE_DATA_SZ`. -/
def NDAX_PAGE_DATA_SZ : Nat := 3960

/-- Fuel-driven worker for `chunkExact` (structural recursion on the fuel
so that chunking computes by kernel reduction; one unit of fuel is spent
per chunk and the list loses at least one element per chunk, so fuel equal
to the list length always suffices). -/
def chunkExactFuel (n : Nat) : Nat → List α → List (List α)
  | _, [] => []
  | 0, _ :: _ => []
  | fuel + 1, a :: l => (a :: l).take n :: chunkExactFuel n fuel (l.drop (n - 1))

/-- Split a list into consecutive chunks of `n` elements
(`np.frombuffer` over a fixed-stride dtype). -/
def chunkExact (n : Nat) (l : List α) : List (List α) :=
  if n = 0 then [] else chunkExactFuel n l.length l

theorem chunkExact_ne_nil (n : Nat) (hn : n ≠ 0) (a : α) (l : List α) :
    chunkExact n (a :: l) ≠ [] := by
  unfold chunkExact
  rw [if_neg hn]
  show chunkExactFuel n (l.length + 1) (a :: l) ≠ []
  simp [chunkExactFuel]

/-- Field accessors of `NDAX_PAGE_INFO` on one raw 4096-byte page:
2-byte type, 2-byte count, 128-byte bitmap, 3960-byte payload, 4-byte
CRC32 trailer. -/
def pageType (p : List Nat) : Nat := leAt p 0 2

def pageCount (p : List Nat) : Nat := leAt p 2 2

def pageBitmap (p : List Nat) : List Nat := (p.drop 4).take NDAX_PAGE_BITMAP_SZ

def pageData (p : List Nat) : List Nat := (p.drop 132).take NDAX_PAGE_DATA_SZ

def pageCrcField (p : List Nat) : Nat := leAt p 4092 4

/-- One step of the reflected CRC-32 bit loop (polynomial 0xEDB88320). -/
def crc32Bit (c : Nat) : Nat := if c % 2 = 1 then (c >>> 1) ^^^ 0xEDB88320 else c >>> 1

/-- Absorb one byte into the CRC-32 state. -/
def crc32Byte (c b : Nat) : Nat := (crc32Bit^[8]) (c ^^^ (b % 256))

/-- Embeds `zlib.crc32` (init 0xFFFFFFFF, final xor 0xFFFFFFFF). -/
def crc32 (bytes : List Nat) : Nat := (bytes.foldl crc32Byte 0xFFFFFFFF) ^^^ 0xFFFFFFFF

/-- Embeds `isPageValid` from FFPE/Neware/NDAXff.py: the CRC32 of bytes
`[0, 4092)` must equal the 4-byte trailer. -/
def isPageValid (p : List Nat) : Bool := crc32 (p.take 4092) == pageCrcField p

/-- Embeds `np.unpackbits(bitmap, bitorder = "little")`. -/
def unpackbitsLE (bytes : List Nat) : List Nat :=
  bytes.flatMap (fun b => (List.range 8).map (fun k => (b >>> k) % 2))

/-- Embeds `num_items = NDAX_PAGE_DATA_SZ // req_type.itemsize`. -/
def pageNumItems (itemsize : Nat) : Nat := NDAX_PAGE_DATA_SZ / itemsize

/-- Embeds `np.frombuffer(f["data"], dtype = req_type, count = num_items)`: the
records of a page, as raw `itemsize`-byte chunks. -/
def pageRecords (p : List Nat) (itemsize : Nat) : List (List Nat) :=
  chunkExact itemsize ((pageData p).take (pageNumItems itemsize * itemsize))

/-- Embeds `np.unpackbits(f["bitmap"], bitorder = "little")[: num_items]`. -/
def pageValidBits (p : List Nat) (itemsize : Nat) : List Nat :=
  (unpackbitsLE (pageBitmap p)).take (pageNumItems itemsize)

/-- Embeds `valid.astype("bool")`. -/
def pageValidB (p : List Nat) (itemsize : Nat) : List Bool :=
  (pageValidBits p itemsize).map (fun v => v != 0)

/-- Embeds `data[valid_bool]`: the records selected by the validity mask. -/
def pageValidRecords (p : List Nat) (itemsize : Nat) : List (List Nat) :=
  ((pageRecords p itemsize).zip (pageValidB p itemsize)).filterMap
    (fun dv => if dv.2 then some dv.1 else none)

/-- Embeds `np.argwhere(validity)`: the indices of the valid records, in order. -/
def pageTrueIndices (p : List Nat) (itemsize : Nat) : List Nat :=
  (List.range (pageValidB p itemsize).length).filter
    (fun i => (pageValidB p itemsize).getD i false)

/-- Embeds `extractAllFromPage` from FFPE/Neware/NDAXff.py. Records are the raw
`itemsize`-byte chunks of the page payload. In "keep invalid records"
mode on the last page, the code slices `parsed_contents[: valid_idcs[-1][0]]`,
i.e. keeps everything strictly before the last valid record's index. -/
def extractAllFromPage (p : List Nat) (itemsize : Nat)
    (drop_invalid_records last_page : Bool) :
    Except String (List (List Nat) × List Bool) :=
  if (pageValidBits p itemsize).sum ≠ pageCount p then
    .error "AssertionError: bitmap population count"
  else if drop_invalid_records then
    .ok (pageValidRecords p itemsize,
      List.replicate (pageValidRecords p itemsize).length true)
  else if last_page then
    match (pageTrueIndices p itemsize).getLast? with
    | none => .ok ([], [])
    | some lastValid =>
      .ok ((pageRecords p itemsize).take lastValid,
        (pageValidB p itemsize).take lastValid)
  else
    .ok (pageRecords p itemsize, pageValidB p itemsize)

/-- Evaluate a Python list comprehension of fallible extractions: the
first raised exception propagates, otherwise all results are collected. -/
def collectResults : List (Except String (List (List Nat) × List Bool)) →
    Except String (List (List (List Nat) × List Bool))
  | [] => .ok []
  | e :: es => do
    let v ← e
    let vs ← collectResults es
    return v :: vs

/-- Embeds `np.frombuffer(buf, dtype = NDAX_PAGE_INFO)`: the raw 4096-byte pages
of a buffer. -/
def bufferPages (buf : List Nat) : List (List Nat) := chunkExact PAGE_SIZE buf

/-- Embeds `step_data[step_data["type"] == type_pagenum]`. -/
def selectPages (buf : List Nat) (type_pagenum : Nat) : List (List Nat) :=
  (bufferPages buf).filter (fun p => pageType p == type_pagenum)

/-- Embeds `extractAllFromBuffer` from FFPE/Neware/NDAXff.py: split the buffer
into 4096-byte pages, select the pages of the requested type, return
early with empty arrays when the whole page array (not the selection) is
empty, optionally CRC-validate the selected pages, then extract every
selected page (the last selected page with `last_page = True`) and
concatenate. Indexing `req_type_pages[-1]` on an empty selection is an
IndexError. -/
def extractAllFromBuffer (buf : List Nat) (type_pagenum itemsize : Nat)
    (validate_pages drop_invalid_records : Bool) :
    Except String (List (List Nat) × List Bool) :=
  if buf.length % PAGE_SIZE ≠ 0 then
    .error "ValueError: buffer size must be a multiple of element size"
  else if (bufferPages buf).isEmpty then .ok ([], [])
  else if validate_pages && !((selectPages buf type_pagenum).all isPageValid) then
    .error "AssertionError: page validation"
  else
    match (selectPages buf type_pagenum).getLast? with
    | none => .error "IndexError: index -1 is out of bounds for axis 0 with size 0"
    | some lastPage => do
      let results ← collectResults
        ((selectPages buf type_pagenum).dropLast.map
            (fun p => extractAllFromPage p itemsize drop_invalid_records false) ++
          [extractAllFromPage lastPage itemsize drop_invalid_records true])
      return ((results.map Prod.fst).flatten, (results.map Prod.snd).flatten)

/-! ### List toolkit for reasoning about page-sized buffers

Concrete pages are 4096 bytes; evaluating them element by element exceeds
the elaborator's recursion capacity, so the concrete extractions below are
computed symbolically over `replicate`/append representations. -/

theorem chunkExactFuel_congr (n : Nat) (f1 f2 : Nat) (l : List α)
    (h1 : l.length ≤ f1) (h2 : l.length ≤ f2) :
    chunkExactFuel n f1 l = chunkExactFuel n f2 l := by
  induction f1 generalizing f2 l with
  | zero =>
    have : l = [] := List.length_eq_zero.mp (Nat.le_zero.mp h1)
    subst this
    cases f2 <;> rfl
  | succ g ih =>
    cases l with
    | nil => cases f2 <;> rfl
    | cons a t =>
      cases f2 with
      | zero => simp at h2
      | succ g2 =>
        show (a :: t).take n :: chunkExactFuel n g (t.drop (n - 1)) =
          (a :: t).take n :: chunkExactFuel n g2 (t.drop (n - 1))
        refine congrArg _ (ih _ _ ?_ ?_)
        · rw [List.length_drop]
          have : t.length ≤ g := by simpa using h1
          omega
        · rw [List.length_drop]
          have : t.length ≤ g2 := by simpa using h2
          omega

theorem chunkExact_nil (n : Nat) : chunkExact n ([] : List α) = [] := by
  unfold chunkExact
  split <;> rfl

theorem chunkExact_append (n : Nat) (hn : n ≠ 0) (l1 l2 : List α)
    (h1 : l1.length = n) :
    chunkExact n (l1 ++ l2) = l1 :: chunkExact n l2 := by
  unfold chunkExact
  rw [if_neg hn, if_neg hn]
  cases l1 with
  | nil => exact absurd h1.symm hn
  | cons a t =>
    have hm : t.length = n - 1 := by
      have := h1
      simp only [List.length_cons] at this
      omega
    have hlen : ((a :: t) ++ l2).length = (n - 1 + l2.length) + 1 := by
      simp only [List.length_append, List.length_cons]
      omega
    rw [hlen]
    show (a :: (t ++ l2)).take n :: chunkExactFuel n (n - 1 + l2.length) ((t ++ l2).drop (n - 1)) =
      (a :: t) :: chunkExactFuel n l2.length l2
    rw [List.drop_left' hm]
    have htake : (a :: (t ++ l2)).take n = a :: t := by
      obtain ⟨m, rfl⟩ : ∃ m, n = m + 1 := ⟨n - 1, by omega⟩
      rw [List.take_succ_cons]
      rw [List.take_left' (by omega : t.length = m)]
    rw [htake, chunkExactFuel_congr n _ l2.length l2 (by omega) (Nat.le_refl _)]

theorem chunkExact_singleton (n : Nat) (hn : n ≠ 0) (l : List α) (h : l.length = n) :
    chunkExact n l = [l] := by
  have := chunkExact_append n hn l [] h
  rw [List.append_nil, chunkExact_nil] at this
  exact this

theorem chunkExact_replicate (n k : Nat) (hn : n ≠ 0) (a : α) :
    chunkExact n (List.replicate (n * k) a) = List.replicate k (List.replicate n a) := by
  induction k with
  | zero => simpa using chunkExact_nil n
  | succ k ih =>
    have hsplit : List.replicate (n * (k + 1)) a =
        List.replicate n a ++ List.replicate (n * k) a := by
      rw [← List.replicate_add]
      congr 1
      ring
    rw [hsplit, chunkExact_append n hn _ _ (List.length_replicate n a), ih]
    rfl

theorem unpackbitsLE_cons (b : Nat) (l : List Nat) :
    unpackbitsLE (b :: l) =
      ((List.range 8).map (fun k => (b >>> k) % 2)) ++ unpackbitsLE l := by
  simp [unpackbitsLE]

theorem unpackbitsLE_append (l1 l2 : List Nat) :
    unpackbitsLE (l1 ++ l2) = unpackbitsLE l1 ++ unpackbitsLE l2 := by
  simp [unpackbitsLE]

theorem unpackbitsLE_replicate_const (k b v : Nat)
    (hb : (List.range 8).map (fun i => (b >>> i) % 2) = List.replicate 8 v) :
    unpackbitsLE (List.replicate k b) = List.replicate (8 * k) v := by
  induction k with
  | zero => rfl
  | succ k ih =>
    rw [show List.replicate (k + 1) b = b :: List.replicate k b from rfl,
      unpackbitsLE_cons, hb, ih, ← List.replicate_add]
    congr 1
    ring

theorem filterMap_zip_replicate_false (data : List (List Nat)) (n : Nat) :
    ((data.zip (List.replicate n false)).filterMap
      (fun dv => if dv.2 then some dv.1 else none)) = [] := by
  induction data generalizing n with
  | nil => rfl
  | cons a t ih =>
    cases n with
    | zero => rfl
    | succ m =>
      show ((a, false) :: t.zip (List.replicate m false)).filterMap _ = []
      rw [List.filterMap_cons]
      simpa using ih m

theorem pageBitmap_structured (hdr bm rest : List Nat) (hh : hdr.length = 4)
    (hb : bm.length = 128) :
    pageBitmap (hdr ++ (bm ++ rest)) = bm := by
  unfold pageBitmap NDAX_PAGE_BITMAP_SZ
  rw [List.drop_left' hh]
  exact List.take_left' hb

theorem pageData_structured (hdr bm dat rest : List Nat) (hh : hdr.length = 4)
    (hb : bm.length = 128) (hd : dat.length = 3960) :
    pageData (hdr ++ (bm ++ (dat ++ rest))) = dat := by
  unfold pageData NDAX_PAGE_DATA_SZ
  rw [← List.append_assoc hdr bm (dat ++ rest),
    List.drop_left' (by rw [List.length_append, hh, hb]), List.take_left' hd]

theorem length_page_structured (hdr bm dat crc : List Nat) (hh : hdr.length = 4)
    (hb : bm.length = 128) (hd : dat.length = 3960) (hc : crc.length = 4) :
    (hdr ++ (bm ++ (dat ++ crc))).length = 4096 := by
  rw [List.length_append, List.length_append, List.length_append, hh, hb, hd, hc]

theorem trueIndices_append_false (front : List Bool) (k : Nat) :
    (List.range (front.length + k)).filter
        (fun i => (front ++ List.replicate k false).getD i false) =
      (List.range front.length).filter (fun i => front.getD i false) := by
  induction k with
  | zero => simp
  | succ k ih =>
    rw [show front.length + (k + 1) = (front.length + k) + 1 from rfl, List.range_succ,
      List.filter_append]
    have hlast : ((front ++ List.replicate (k + 1) false).getD (front.length + k) false) = false := by
      rw [List.getD_eq_getElem?_getD, List.getElem?_append_right (by omega)]
      have : front.length + k - front.length = k := by omega
      rw [this, List.getElem?_replicate, if_pos (by omega)]
      rfl
    have h2 : ([front.length + k].filter
        (fun i => (front ++ List.replicate (k + 1) false).getD i false)) = [] := by
      simp only [List.filter_cons, List.filter_nil, hlast]
      simp
    rw [h2, List.append_nil]
    have hsame : ∀ i ∈ List.range (front.length + k),
        ((front ++ List.replicate (k + 1) false).getD i false) =
          ((front ++ List.replicate k false).getD i false) := by
      intro i hi
      have hi2 := List.mem_range.mp hi
      rcases Nat.lt_or_ge i front.length with h | h
      · rw [List.getD_eq_getElem?_getD, List.getElem?_append_left h,
          List.getD_eq_getElem?_getD, List.getElem?_append_left h]
      · rw [List.getD_eq_getElem?_getD, List.getElem?_append_right h,
          List.getD_eq_getElem?_getD, List.getElem?_append_right h,
          List.getElem?_replicate, List.getElem?_replicate,
          if_pos (by omega), if_pos (by omega)]
    rw [List.filter_congr hsame, ih]

/-- A 4096-byte page of type 2 with population count 0 and all-zero
bitmap: a page of the requested type that holds no valid records. -/
def emptyTypedPage : List Nat :=
  [2, 0, 0, 0] ++ (List.replicate 128 0 ++ (List.replicate 3960 0 ++ [0, 0, 0, 0]))

theorem extract_emptyTypedPage :
    extractAllFromPage emptyTypedPage 8 true true = .ok ([], []) := by
  have hbm : pageBitmap emptyTypedPage = List.replicate 128 0 := by
    unfold emptyTypedPage
    exact pageBitmap_structured _ _ _ rfl (List.length_replicate _ _)
  have hbits : pageValidBits emptyTypedPage 8 = List.replicate 495 0 := by
    unfold pageValidBits pageNumItems NDAX_PAGE_DATA_SZ
    rw [hbm, unpackbitsLE_replicate_const 128 0 0 (by decide), List.take_replicate]
    norm_num
  have hvB : pageValidB emptyTypedPage 8 = List.replicate 495 false := by
    unfold pageValidB
    rw [hbits, List.map_replicate]
    rfl
  have hvrec : pageValidRecords emptyTypedPage 8 = [] := by
    unfold pageValidRecords
    rw [hvB, filterMap_zip_replicate_false]
  have hsum : (pageValidBits emptyTypedPage 8).sum = 0 := by
    rw [hbits, List.sum_replicate, smul_eq_mul]
  have hcount : pageCount emptyTypedPage = 0 := rfl
  unfold extractAllFromPage
  rw [hsum, hcount, if_neg (by norm_num), if_pos rfl, hvrec]
  rfl

/-- Counterexample for C10: the claim "extractAllFromBuffer returns a pair
of empty arrays only when the input buffer contains zero 4096-byte pages"
is false: a buffer holding one page of the requested type whose bitmap
marks no valid record also yields the empty pair. -/
theorem C10_counterexample_empty_from_one_page :
    extractAllFromBuffer emptyTypedPage 2 8 false true = .ok ([], []) ∧
    (bufferPages emptyTypedPage).length = 1 := by
  have hlen : emptyTypedPage.length = 4096 := by
    unfold emptyTypedPage
    exact length_page_structured _ _ _ _ rfl (List.length_replicate _ _)
      (List.length_replicate _ _) rfl
  have hpages : bufferPages emptyTypedPage = [emptyTypedPage] := by
    unfold bufferPages
    exact chunkExact_singleton PAGE_SIZE (by norm_num [PAGE_SIZE]) _ (by rw [hlen]; rfl)
  have htype : pageType emptyTypedPage = 2 := rfl
  have hsel : selectPages emptyTypedPage 2 = [emptyTypedPage] := by
    unfold selectPages
    rw [hpages, List.filter_cons, htype]
    simp
  constructor
  · unfold extractAllFromBuffer
    rw [hlen, if_neg (by norm_num [PAGE_SIZE]), hpages, hsel]
    simp only [List.isEmpty_cons, Bool.false_eq_true, if_false, Bool.false_and,
      List.getLast?_singleton, List.dropLast_single, List.map_nil, List.nil_append,
      extract_emptyTypedPage]
    rfl
  · rw [hpages]
    rfl

/-- Claim C10 (amended): an empty buffer yields the empty pair, and for
every non-empty buffer of whole pages in which no page carries the
requested type tag, `extractAllFromBuffer` raises an IndexError (the
empty-selection guard tests the whole page array, not the type-filtered
selection, before `req_type_pages[-1]` is indexed) rather than returning
empty results. -/
theorem C10_no_matching_page_raises (buf : List Nat) (tp isz : Nat) (v d : Bool)
    (hdiv : buf.length % PAGE_SIZE = 0) (hne : buf ≠ [])
    (hnomatch : ∀ p ∈ bufferPages buf, pageType p ≠ tp) :
    extractAllFromBuffer [] tp isz v d = .ok ([], []) ∧
    extractAllFromBuffer buf tp isz v d =
      .error "IndexError: index -1 is out of bounds for axis 0 with size 0" := by
  constructor
  · rfl
  · have hsel : selectPages buf tp = [] := by
      unfold selectPages
      rw [List.filter_eq_nil_iff]
      intro p hp
      simpa using hnomatch p hp
    have hne2 : (bufferPages buf).isEmpty = false := by
      obtain ⟨a, l, rfl⟩ := List.exists_cons_of_ne_nil hne
      unfold bufferPages
      rcases hc : chunkExact PAGE_SIZE (a :: l) with _ | ⟨p, ps⟩
      · exact absurd hc (chunkExact_ne_nil PAGE_SIZE (by norm_num [PAGE_SIZE]) a l)
      · rfl
    unfold extractAllFromBuffer
    rw [if_neg (fun h => h hdiv), hne2, hsel]
    simp

/-- Witness for the amended C10 at a concrete one-page buffer whose page
type 0 differs from the requested type 2. -/
theorem C10_witness :
    extractAllFromBuffer [] 2 8 true true = .ok ([], []) ∧
    extractAllFromBuffer (List.replicate 4096 0) 2 8 true true =
      .error "IndexError: index -1 is out of bounds for axis 0 with size 0" :=
  C10_no_matching_page_raises (List.replicate 4096 0) 2 8 true true
    (by rw [List.length_replicate]; rfl)
    (by
      intro h
      have hlen := congrArg List.length h
      rw [List.length_replicate] at hlen
      exact absurd hlen (by norm_num))
    (by
      intro p hp
      have hpages : bufferPages (List.replicate 4096 (0:Nat)) = [List.replicate 4096 0] := by
        unfold bufferPages
        exact chunkExact_singleton PAGE_SIZE (by norm_num [PAGE_SIZE]) _
          (by rw [List.length_replicate]; rfl)
      rw [hpages, List.mem_singleton] at hp
      subst hp
      rw [show pageType (List.replicate 4096 0) = 0 from rfl]
      norm_num)

/-! ### C3: a 2-page stream in "keep invalid records" mode -/

/-- Page-1 bitmap: bits 0..494 set (3960/8 = 495 records, page full). -/
def c3bitmap1 : List Nat := List.replicate 61 255 ++ ([127] ++ List.replicate 66 0)

/-- Page 1: type 2, count 495 (little-endian [239, 1]), full bitmap. -/
def c3page1 : List Nat :=
  [2, 0, 239, 1] ++ (c3bitmap1 ++ (List.replicate 3960 0 ++ [0, 0, 0, 0]))

/-- Page-2 bitmap: only bits 0 and 1 set (2 valid leading records). -/
def c3bitmap2 : List Nat := [3] ++ List.replicate 127 0

/-- Page 2 (the last page): type 2, count 2. -/
def c3page2 : List Nat :=
  [2, 0, 2, 0] ++ (c3bitmap2 ++ (List.replicate 3960 0 ++ [0, 0, 0, 0]))

def c3buf : List Nat := c3page1 ++ c3page2

theorem c3bitmap1_length : c3bitmap1.length = 128 := by
  unfold c3bitmap1
  rw [List.length_append, List.length_append, List.length_replicate,
    List.length_replicate]
  rfl

theorem c3bitmap2_length : c3bitmap2.length = 128 := by
  unfold c3bitmap2
  rw [List.length_append, List.length_replicate]
  rfl

theorem c3_bits1 : pageValidBits c3page1 8 = List.replicate 495 1 := by
  have hbm : pageBitmap c3page1 = c3bitmap1 := by
    unfold c3page1
    exact pageBitmap_structured _ _ _ rfl c3bitmap1_length
  unfold pageValidBits pageNumItems NDAX_PAGE_DATA_SZ
  rw [hbm]
  unfold c3bitmap1
  rw [unpackbitsLE_append, unpackbitsLE_append,
    unpackbitsLE_replicate_const 61 255 1 (by decide),
    unpackbitsLE_replicate_const 66 0 0 (by decide),
    show unpackbitsLE [127] = [1, 1, 1, 1, 1, 1, 1, 0] from rfl]
  rw [show (3960 / 8 : Nat) = 495 from rfl,
    List.take_append_eq_append_take, List.take_replicate, List.length_replicate]
  rw [show min 495 (8 * 61) = 488 from rfl, show (495 - 8 * 61 : Nat) = 7 from rfl]
  rw [List.take_append_eq_append_take,
    show ([1, 1, 1, 1, 1, 1, 1, 0] : List Nat).take 7 = [1, 1, 1, 1, 1, 1, 1] from rfl,
    show ((7 : Nat) - ([1, 1, 1, 1, 1, 1, 1, 0] : List Nat).length) = 0 from rfl,
    List.take_zero, List.append_nil]
  rw [show ([1, 1, 1, 1, 1, 1, 1] : List Nat) = List.replicate 7 1 from rfl,
    ← List.replicate_add]

theorem c3_validB1 : pageValidB c3page1 8 = List.replicate 495 true := by
  unfold pageValidB
  rw [c3_bits1, List.map_replicate]
  rfl

theorem c3_records1 : pageRecords c3page1 8 = List.replicate 495 (List.replicate 8 0) := by
  have hdat : pageData c3page1 = List.replicate 3960 0 := by
    unfold c3page1
    exact pageData_structured _ _ _ _ rfl c3bitmap1_length (List.length_replicate _ _)
  unfold pageRecords pageNumItems NDAX_PAGE_DATA_SZ
  rw [hdat, show ((3960 / 8 : Nat) * 8) = 3960 from rfl, List.take_replicate,
    show min 3960 3960 = 3960 from rfl, show (3960 : Nat) = 8 * 495 from rfl]
  exact chunkExact_replicate 8 495 (by norm_num) 0

theorem c3_extract_page1 :
    extractAllFromPage c3page1 8 false false =
      .ok (List.replicate 495 (List.replicate 8 0), List.replicate 495 true) := by
  unfold extractAllFromPage
  rw [c3_bits1, List.sum_replicate, smul_eq_mul,
    show pageCount c3page1 = 495 from rfl]
  rw [if_neg (by norm_num)]
  rw [if_neg Bool.false_ne_true, if_neg Bool.false_ne_true]
  rw [c3_records1, c3_validB1]

theorem c3_bits2 :
    pageValidBits c3page2 8 = [1, 1, 0, 0, 0, 0, 0, 0] ++ List.replicate 487 0 := by
  have hbm : pageBitmap c3page2 = c3bitmap2 := by
    unfold c3page2
    exact pageBitmap_structured _ _ _ rfl c3bitmap2_length
  unfold pageValidBits pageNumItems NDAX_PAGE_DATA_SZ
  rw [hbm]
  unfold c3bitmap2
  rw [unpackbitsLE_append,
    unpackbitsLE_replicate_const 127 0 0 (by decide),
    show unpackbitsLE [3] = [1, 1, 0, 0, 0, 0, 0, 0] from rfl]
  rw [show (3960 / 8 : Nat) = 495 from rfl, List.take_append_eq_append_take,
    show ([1, 1, 0, 0, 0, 0, 0, 0] : List Nat).take 495 = [1, 1, 0, 0, 0, 0, 0, 0] from rfl,
    show ((495 : Nat) - ([1, 1, 0, 0, 0, 0, 0, 0] : List Nat).length) = 487 from rfl,
    List.take_replicate, show min 487 (8 * 127) = 487 from rfl]

theorem c3_validB2 :
    pageValidB c3page2 8 =
      [true, true, false, false, false, false, false, false] ++
        List.replicate 487 false := by
  unfold pageValidB
  rw [c3_bits2, List.map_append, List.map_replicate]
  rfl

theorem c3_records2 : pageRecords c3page2 8 = List.replicate 495 (List.replicate 8 0) := by
  have hdat : pageData c3page2 = List.replicate 3960 0 := by
    unfold c3page2
    exact pageData_structured _ _ _ _ rfl c3bitmap2_length (List.length_replicate _ _)
  unfold pageRecords pageNumItems NDAX_PAGE_DATA_SZ
  rw [hdat, show ((3960 / 8 : Nat) * 8) = 3960 from rfl, List.take_replicate,
    show min 3960 3960 = 3960 from rfl, show (3960 : Nat) = 8 * 495 from rfl]
  exact chunkExact_replicate 8 495 (by norm_num) 0

theorem c3_true2 : pageTrueIndices c3page2 8 = [0, 1] := by
  unfold pageTrueIndices
  rw [c3_validB2, List.length_append, List.length_replicate,
    trueIndices_append_false]
  decide

/-- The last page keeps only the records strictly before index 1 (the last
valid record's index): one record instead of the two valid ones. -/
theorem c3_extract_page2 :
    extractAllFromPage c3page2 8 false true = .ok ([List.replicate 8 0], [true]) := by
  unfold extractAllFromPage
  rw [c3_bits2, List.sum_append, List.sum_replicate, smul_eq_mul,
    show ([1, 1, 0, 0, 0, 0, 0, 0] : List Nat).sum = 2 from rfl,
    show pageCount c3page2 = 2 from rfl]
  rw [if_neg (by norm_num)]
  rw [if_neg Bool.false_ne_true, if_pos rfl]
  rw [c3_true2, show ([0, 1] : List Nat).getLast? = some 1 from rfl]
  show Except.ok ((pageRecords c3page2 8).take 1, (pageValidB c3page2 8).take 1) = _
  rw [c3_records2, c3_validB2, List.take_replicate,
    show min 1 495 = 1 from rfl, List.take_append_eq_append_take,
    show ([true, true, false, false, false, false, false, false] : List Bool).take 1 =
      [true] from rfl,
    show ((1 : Nat) - ([true, true, false, false, false, false, false, false] :
      List Bool).length) = 0 from rfl,
    List.take_zero, List.append_nil]
  rfl

theorem c3page1_length : c3page1.length = 4096 := by
  unfold c3page1
  exact length_page_structured _ _ _ _ rfl c3bitmap1_length
    (List.length_replicate _ _) rfl

theorem c3page2_length : c3page2.length = 4096 := by
  unfold c3page2
  exact length_page_structured _ _ _ _ rfl c3bitmap2_length
    (List.length_replicate _ _) rfl

theorem c3buf_pages : bufferPages c3buf = [c3page1, c3page2] := by
  unfold bufferPages c3buf
  rw [chunkExact_append PAGE_SIZE (by norm_num [PAGE_SIZE]) _ _
      (by rw [c3page1_length]; rfl),
    chunkExact_singleton PAGE_SIZE (by norm_num [PAGE_SIZE]) _
      (by rw [c3page2_length]; rfl)]

/-- Claim C3: evaluating the decoder at the 2-page stream of the claim:
page 1 fully populated with 3960/8 = 495 records, page 2 (the last page)
holding exactly 2 valid leading records. In "keep invalid records" mode
`extractAllFromBuffer` yields 496 records — not the 495 + 2 = 497 the
specification requires — because the last-page truncation slices
`parsed_contents[: valid_idcs[-1][0]]`, dropping the last valid record
itself along with the trailing invalid ones. -/
theorem C3_last_page_truncation_off_by_one :
    (extractAllFromBuffer c3buf 2 8 false false).map
        (fun r => (r.1.length, r.2.length)) = .ok (496, 496) ∧
    (496 : Nat) ≠ NDAX_PAGE_DATA_SZ / 8 + 2 := by
  constructor
  · have hsel : selectPages c3buf 2 = [c3page1, c3page2] := by
      unfold selectPages
      rw [c3buf_pages, List.filter_cons, List.filter_cons, List.filter_nil,
        show pageType c3page1 = 2 from rfl, show pageType c3page2 = 2 from rfl]
      rw [show ((2 : Nat) == 2) = true from rfl, if_pos rfl, if_pos rfl]
    have hlen : c3buf.length = 8192 := by
      unfold c3buf
      rw [List.length_append, c3page1_length, c3page2_length]
    unfold extractAllFromBuffer
    rw [hlen, if_neg (by norm_num [PAGE_SIZE]), c3buf_pages,
      show ([c3page1, c3page2] : List (List Nat)).isEmpty = false from rfl,
      if_neg Bool.false_ne_true, Bool.false_and, if_neg Bool.false_ne_true, hsel,
      show ([c3page1, c3page2] : List (List Nat)).getLast? = some c3page2 from rfl]
    show (collectResults
        (([c3page1, c3page2] : List (List Nat)).dropLast.map
            (fun p => extractAllFromPage p 8 false false) ++
          [extractAllFromPage c3page2 8 false true]) >>= fun results =>
        pure ((results.map Prod.fst).flatten, (results.map Prod.snd).flatten)).map
        (fun r => (r.1.length, r.2.length)) = .ok (496, 496)
    rw [show ([c3page1, c3page2] : List (List Nat)).dropLast = [c3page1] from rfl,
      List.map_cons, List.map_nil, c3_extract_page1, c3_extract_page2]
    rw [show ([Except.ok (List.replicate 495 (List.replicate 8 0), List.replicate 495 true)] ++
        [Except.ok ([List.replicate 8 0], ([true] : List Bool))]) =
      [Except.ok (List.replicate 495 (List.replicate 8 0), List.replicate 495 true),
        Except.ok ([List.replicate 8 0], ([true] : List Bool))] from rfl]
    rw [show collectResults
        [Except.ok (List.replicate 495 (List.replicate 8 0), List.replicate 495 true),
          Except.ok ([List.replicate 8 0], ([true] : List Bool))] =
      Except.ok [(List.replicate 495 (List.replicate 8 0), List.replicate 495 true),
        ([List.replicate 8 0], ([true] : List Bool))] from rfl]
    show Except.ok
        ((((([(List.replicate 495 (List.replicate 8 0), List.replicate 495 true),
            ([List.replicate 8 0], ([true] : List Bool))]).map Prod.fst).flatten).length),
          (((([(List.replicate 495 (List.replicate 8 0), List.replicate 495 true),
            ([List.replicate 8 0], ([true] : List Bool))]).map Prod.snd).flatten).length)) =
      Except.ok ((496 : Nat), (496 : Nat))
    rw [show (([(List.replicate 495 (List.replicate 8 0), List.replicate 495 true),
        ([List.replicate 8 0], ([true] : List Bool))]).map Prod.fst) =
      [List.replicate 495 (List.replicate 8 0), [List.replicate 8 0]] from rfl]
    rw [show (([(List.replicate 495 (List.replicate 8 0), List.replicate 495 true),
        ([List.replicate 8 0], ([true] : List Bool))]).map Prod.snd) =
      [List.replicate 495 true, ([true] : List Bool)] from rfl]
    rw [show ([List.replicate 495 (List.replicate 8 0), [List.replicate 8 0]]).flatten =
      List.replicate 495 (List.replicate 8 0) ++ ([List.replicate 8 0] ++ []) from rfl]
    rw [show ([List.replicate 495 true, ([true] : List Bool)]).flatten =
      List.replicate 495 true ++ ([true] ++ ([] : List Bool)) from rfl]
    rw [List.length_append, List.length_append, List.length_replicate,
      List.length_append, List.length_append, List.length_replicate]
    rfl
  · decide

/-! ### C1: the global-column assembly of NDAX `fromFile` -/

/-- The module-level names bound in src/FFPE/Neware/constants.py. -/
def newareConstantsNames : List String :=
  ["np", "STEP_TYPES", "DEFAULT_HALF_STEP_TRIGGERS", "findStepChanges",
    "convertIndices", "findHalfCycleChanges"]

/-- Python attribute lookup on the FFPE.Neware.constants module. -/
def constantsHasAttr (s : String) : Bool := newareConstantsNames.contains s

/-- The per-step arrays extracted from the NDAX step stream
(`step_data["Ns"]`, `["mode"]`, `["start_time"]`, `["start_record_no"]`). -/
structure NdaxStepArrays where
  ns : List Nat
  mode : List Nat
  start_time : List Int
  start_record_no : List Int

/-- The tail of `fromFile` in FFPE/Neware/NDAXff.py (lines 330-340): given
the extracted step arrays and the interpolated per-record columns, assert
that the first step's starting record number is 1, derive the per-record
step indices and the `Ns`, global `time` and `Q-Q0` columns, then compute
the half-cycle boundaries. That last step reads
`constants.HALF_STEP_TRIGGER_STEP_NUMS`, a name FFPE/Neware/constants.py
never defines, so the lookup raises AttributeError before `fromFile` can
return its dataframe. (`mode` would feed the half-cycle computation.) -/
def ndaxAssembleGlobals (step : NdaxStepArrays)
    (record_no step_time qcharge qdischarge : List Int) :
    Except String (List (String × List Int)) :=
  if step.start_record_no.length = 0 then
    .error "IndexError: index 0 is out of bounds for axis 0 with size 0"
  else if step.start_record_no.getD 0 0 ≠ 1 then
    .error "AssertionError: the first step has an invalid starting record number"
  else
    let data_step_indices := convertIndices record_no step.start_record_no
    let nsCol := data_step_indices.map (fun k => npIndex (step.ns.map Int.ofNat) k)
    let timeCol := List.zipWith (· + ·)
      (data_step_indices.map (fun k => npIndex step.start_time k)) step_time
    let qq0 := convertStepToGlobal (List.zipWith (· - ·) qcharge qdischarge)
      (step.start_record_no.map (fun r => r - 1))
    if constantsHasAttr "HALF_STEP_TRIGGER_STEP_NUMS" then
      .ok [("Ns", nsCol), ("time", timeCol), ("Q-Q0", qq0)]
    else
      .error "AttributeError: module FFPE.Neware.constants has no attribute HALF_STEP_TRIGGER_STEP_NUMS"

/-- Claim C1: the NDAX `fromFile` assembly never returns a
measurement-sequence table: for every extracted input — well-formed or not
— it raises before the dataframe with the `time`, `Ewe`, `current`,
`Q-Q0`, `Ns` and `half cycle` columns can be produced, because line 339
reads the undefined module attribute `HALF_STEP_TRIGGER_STEP_NUMS`. -/
theorem C1_ndax_fromFile_never_returns (step : NdaxStepArrays)
    (record_no step_time qcharge qdischarge : List Int) :
    (ndaxAssembleGlobals step record_no step_time qcharge qdischarge).isOk = false := by
  unfold ndaxAssembleGlobals
  by_cases h0 : step.start_record_no.length = 0
  · rw [if_pos h0]
    rfl
  · rw [if_neg h0]
    by_cases h1 : step.start_record_no.getD 0 0 ≠ 1
    · rw [if_pos h1]
      rfl
    · rw [if_neg h1,
        show constantsHasAttr "HALF_STEP_TRIGGER_STEP_NUMS" = false from rfl,
        if_neg Bool.false_ne_true]
      rfl

/-! ## FFPE/BioLogic/MPRff.py — the VMP data section -/

/-- One column of the VMP data record (`VMP_DATA_FIELD_LIST` entries):
either a fixed-width numeric field (the struct format collapsed to its
byte width — values are modelled as raw little-endian bit patterns) or a
bit-field at `fbit` of width `fsize` inside the shared flags byte. -/
inductive VMPColSpec where
  | numeric (name : String) (size : Nat)
  | bitfield (name : String) (fbit fsize : Nat)
deriving DecidableEq

def ACCEPTED_VERSIONS : List Nat := [1101, 1146, 1152]

/-- Embeds `VMP_DATA_FIELD_LIST`: data code → column spec (codes written
in decimal: 0xb = 11, ..., 0x1d5 = 469). -/
def VMP_DATA_FIELD_LIST : Nat → Option VMPColSpec
  | 1 => some (.bitfield "mode" 0 2)
  | 2 => some (.bitfield "ox/red" 2 1)
  | 3 => some (.bitfield "error" 3 1)
  | 4 => some (.numeric "time" 8)
  | 5 => some (.numeric "control I" 4)
  | 6 => some (.numeric "Ewe" 4)
  | 7 => some (.numeric "dq" 8)
  | 8 => some (.numeric "I" 4)
  | 11 => some (.numeric "<I>_mA" 8)
  | 13 => some (.numeric "Q-Q0" 8)
  | 19 => some (.numeric "control V" 4)
  | 21 => some (.bitfield "control change" 4 1)
  | 24 => some (.numeric "cycle number" 8)
  | 31 => some (.bitfield "Ns change" 5 1)
  | 32 => some (.numeric "freq" 4)
  | 33 => some (.numeric "|Ewe|" 4)
  | 34 => some (.numeric "|I|" 4)
  | 35 => some (.numeric "angle(Z)" 4)
  | 36 => some (.numeric "|Z|" 4)
  | 37 => some (.numeric "Re(Z)" 4)
  | 38 => some (.numeric "-Im(Z)" 4)
  | 39 => some (.numeric "I range" 2)
  | 65 => some (.bitfield "counter change" 7 1)
  | 74 => some (.numeric "Energy" 8)
  | 70 => some (.numeric "P" 4)
  | 76 => some (.numeric "<I>" 4)
  | 77 => some (.numeric "<Ewe>" 4)
  | 123 => some (.numeric "Energy charge" 8)
  | 124 => some (.numeric "Energy discharge" 8)
  | 125 => some (.numeric "Capacitance charge" 8)
  | 126 => some (.numeric "Capacitance discharge" 8)
  | 131 => some (.numeric "Ns" 2)
  | 169 => some (.numeric "Cs" 4)
  | 172 => some (.numeric "Cp" 4)
  | 434 => some (.numeric "(Q-Q0)_C" 4)
  | 438 => some (.numeric "Step time" 8)
  | 467 => some (.numeric "Q charge/discharge" 8)
  | 468 => some (.numeric "half cycle" 4)
  | 469 => some (.numeric "Z cycle" 4)
  | _ => none

def VMPColSpec.isBit : VMPColSpec → Bool
  | .bitfield _ _ _ => true
  | .numeric _ _ => false

/-- Byte width a column contributes to the record (bit-fields live in the
shared flags byte and contribute none themselves). -/
def VMPColSpec.byteSize : VMPColSpec → Nat
  | .bitfield _ _ _ => 0
  | .numeric _ sz => sz

/-- Embeds `self.hasFlags`. -/
def hasFlagsOf (cols : List VMPColSpec) : Bool := cols.any VMPColSpec.isBit

/-- Width of the implicit leading flags byte (1 when any column is a
bit-field, else 0). -/
def flagsSize (cols : List VMPColSpec) : Nat := if hasFlagsOf cols then 1 else 0

/-- Embeds `np.dtype(self.record_spec).itemsize`. -/
def recordStride (cols : List VMPColSpec) : Nat :=
  flagsSize cols + (cols.map VMPColSpec.byteSize).sum

/-- The state `VMPdata.__init__` leaves behind: record count, column
count, resolved column list, record stride, and `self.ptr`. -/
structure VMPdataInfo where
  numDataPts : Nat
  numCols : Nat
  colList : List VMPColSpec
  itemsize : Nat
  ptrStart : Int
deriving DecidableEq

/-- Reads the `numCols` 2-byte column codes starting at `base`. -/
def readColCodes (data : List Nat) (base n : Nat) : List Nat :=
  (List.range n).map (fun i => leAt data (base + 2 * i) 2)

/-- Embeds `parseVMPDataCode`: unknown codes are a fatal schema error. -/
def parseVMPDataCode (code : Nat) : Except String VMPColSpec :=
  match VMP_DATA_FIELD_LIST code with
  | some c => .ok c
  | none => .error "AssertionError: unknown data code"

def resolveColCodes : List Nat → Except String (List VMPColSpec)
  | [] => .ok []
  | c :: cs => do
    let col ← parseVMPDataCode c
    let cols ← resolveColCodes cs
    return col :: cols

/-- Embeds the data-section header parse of `VMPdata.__init__`: read the
record count (4 bytes), the column count (2 bytes for version 1152, else
1 byte), resolve the 2-byte column codes, build the record spec, and
place `self.ptr` at `dataSize - numDataPts * itemsize`, less one extra
`itemsize` for version 1101 (whose files never contain the last record). -/
def vmpDataInit (data : List Nat) (dataSize version : Nat) :
    Except String VMPdataInfo :=
  if version ∉ ACCEPTED_VERSIONS then
    .error "AssertionError: version not supported"
  else
    let numDataPts := leAt data 0 4
    let numCols := if version = 1152 then leAt data 4 2 else leAt data 4 1
    let base := if version = 1152 then 6 else 5
    do
      let colList ← resolveColCodes (readColCodes data base numCols)
      let itemsize := recordStride colList
      let dataStart : Int := (dataSize : Int) - numDataPts * itemsize
      return ⟨numDataPts, numCols, colList, itemsize,
        if version = 1101 then dataStart - itemsize else dataStart⟩

/-- Claim C2: for every accepted MPR software version and every data section
the header parse accepts, the start of the fixed-stride record array is
placed at byte offset `payloadLength - recordCount * recordStride` within
the section payload, reduced by one extra `recordStride` exactly for
version 1101. -/
theorem C2_record_array_offset (data : List Nat) (dataSize version : Nat)
    (info : VMPdataInfo) (hv : version ∈ ACCEPTED_VERSIONS)
    (h : vmpDataInit data dataSize version = .ok info) :
    info.ptrStart = (dataSize : Int) - info.numDataPts * info.itemsize -
      (if version = 1101 then (info.itemsize : Int) else 0) := by
  unfold vmpDataInit at h
  rw [if_neg (not_not_intro hv)] at h
  simp only [] at h
  cases hres : resolveColCodes (readColCodes data (if version = 1152 then 6 else 5)
      (if version = 1152 then leAt data 4 2 else leAt data 4 1)) with
  | error e =>
    rw [hres] at h
    exact absurd h (by simp [Bind.bind, Except.bind])
  | ok cols =>
    rw [hres] at h
    simp only [Bind.bind, Except.bind, pure, Except.pure] at h
    cases h
    all_goals
      by_cases h1101 : version = 1101
    all_goals simp only [h1101, if_true, if_false]
    all_goals ring

/-- Witness for C2: version 1146, a payload declaring 2 records and the
columns `Ewe` (code 6, 4 bytes) and `mode` (code 1, bit-field), stride
1 + 4 = 5, payload length 100: the record array starts at 100 - 10 = 90. -/
theorem C2_witness :
    (⟨2, 2, [.numeric "Ewe" 4, .bitfield "mode" 0 2], 5, 90⟩ : VMPdataInfo).ptrStart =
      ((100 : Nat) : Int) - 2 * 5 - (if (1146 : Nat) = 1101 then ((5 : Nat) : Int) else 0) :=
  C2_record_array_offset [2, 0, 0, 0, 2, 6, 0, 1, 0] 100 1146
    ⟨2, 2, [.numeric "Ewe" 4, .bitfield "mode" 0 2], 5, 90⟩
    (by decide) (by rfl)

/-! ### C4: the three decode strategies of `VMPdata` -/

/-- One record of the sequential `parse`: read the columns in list order
starting at cursor `p` (bit-fields read from the flags value, numeric
fields from the cursor, advancing it); returns the values in column order
together with the final cursor. -/
def parseRecordCols (data : List Nat) (flags : Nat) :
    List VMPColSpec → Nat → List Nat × Nat
  | [], p => ([], p)
  | c :: cs, p =>
    match c with
    | .bitfield _ fb fs =>
      let rest := parseRecordCols data flags cs p
      (getBitField flags fb fs :: rest.1, rest.2)
    | .numeric _ sz =>
      let rest := parseRecordCols data flags cs (p + sz)
      (leAt data p sz :: rest.1, rest.2)

/-- The record loop of the sequential `parse`: for each of `n` records,
read the flags byte when the record has one, then the columns. -/
def parseSeqRecords (data : List Nat) (cols : List VMPColSpec) :
    Nat → Nat → List (List Nat)
  | 0, _ => []
  | n + 1, p =>
    let flags := if hasFlagsOf cols then byteAt data p else 0
    let pIn := if hasFlagsOf cols then p + 1 else p
    let r := parseRecordCols data flags cols pIn
    r.1 :: parseSeqRecords data cols n r.2

/-- Embeds `VMPdata.parse` (the sequential reference strategy), presented
column-major: entry `j` is the list of the j-th column's values. -/
def parse (data : List Nat) (cols : List VMPColSpec) (N p0 : Nat) :
    List (List Nat) :=
  (List.range cols.length).map
    (fun j => (parseSeqRecords data cols N p0).map (fun r => r.getD j 0))

/-- Reads one column value of a fixed-stride record starting at byte
`recStart` of the raw data: a bit-field column extracts its bits from the
flags byte stored at the record start, while a numeric column reads its
bytes at `recStart + fieldOff`. Both `parseVec` and `parseMP` read every
value this way; the two strategies differ only in the stride between
records and in how each column's `fieldOff` is computed. -/
def readColAt (data : List Nat) (c : VMPColSpec) (recStart fieldOff : Nat) : Nat :=
  match c with
  | .bitfield _ fb fs => getBitField (byteAt data recStart) fb fs
  | .numeric _ sz => leAt data (recStart + fieldOff) sz

/-- Reads one column value the way the sequential `parse` does: a
bit-field column extracts its bits from the already-read `flags` value,
while a numeric column reads its bytes at the current cursor position
`numOff`. -/
def readColSeq (data : List Nat) (flags : Nat) (c : VMPColSpec) (numOff : Nat) : Nat :=
  match c with
  | .bitfield _ fb fs => getBitField flags fb fs
  | .numeric _ sz => leAt data numOff sz

/-- Byte offset of column `j` inside one record of the numpy
`record_spec` (flags byte first, then the numeric columns in order). -/
def vecOffset (cols : List VMPColSpec) (j : Nat) : Nat :=
  flagsSize cols + ((cols.take j).map VMPColSpec.byteSize).sum

/-- Embeds `VMPdata.parseVec` (bulk fixed-stride reinterpretation via
`np.frombuffer` on the record spec), column-major: record `i` starts at
`p0 + i * itemsize`, column `j` sits at its `record_spec` offset inside
the record, and a bit-field column reads the shared flags byte at the
record start. -/
def parseVec (data : List Nat) (cols : List VMPColSpec) (N p0 : Nat) :
    List (List Nat) :=
  (List.range cols.length).map (fun j =>
    (List.range N).map (fun i =>
      readColAt data (cols.getD j (.numeric "" 0))
        (p0 + i * recordStride cols) (vecOffset cols j)))

/-- The `blockOffsets` loop of `VMPdata.parseMP`, with Python list-index
semantics: `blockOffsets[i - 1]` wraps around to the last entry when
`i = 0`; bit-field columns are skipped without updating the running
state. -/
def mpOffsetsLoop : List VMPColSpec → Nat → List Nat → Nat → List Nat × Nat
  | [], _, offs, szPrev => (offs, szPrev)
  | c :: cs, i, offs, szPrev =>
    match c with
    | .bitfield _ _ _ => mpOffsetsLoop cs (i + 1) offs szPrev
    | .numeric _ sz =>
      let prev := if i = 0 then offs.getLast?.getD 0 else offs.getD (i - 1) 0
      mpOffsetsLoop cs (i + 1) (offs.set i (prev + szPrev)) sz

def mpBlockOffsets (cols : List VMPColSpec) : List Nat × Nat :=
  mpOffsetsLoop cols 0 (List.replicate cols.length 0) (flagsSize cols)

/-- Embeds `self.dataBlockSize = self.blockOffsets[-1] + szPrev`. -/
def mpDataBlockSize (cols : List VMPColSpec) : Nat :=
  (mpBlockOffsets cols).1.getLast?.getD 0 + (mpBlockOffsets cols).2

/-- Embeds `VMPdata.parseMP` (the parallel strategy): record `i` starts
at `p0 + i * dataBlockSize`, column `j` is read at its `blockOffsets`
entry inside the record, and a bit-field column reads the flags byte at
the record start. Results are gathered in record order, so worker
scheduling does not enter the model. -/
def parseMP (data : List Nat) (cols : List VMPColSpec) (N p0 : Nat) :
    List (List Nat) :=
  (List.range cols.length).map (fun j =>
    (List.range N).map (fun i =>
      readColAt data (cols.getD j (.numeric "" 0))
        (p0 + i * mpDataBlockSize cols) ((mpBlockOffsets cols).1.getD j 0)))

/-- Column lists whose bit-field columns all precede the numeric ones. -/
def bitsFirst (cols : List VMPColSpec) : Bool :=
  (cols.dropWhile VMPColSpec.isBit).all (fun c => !c.isBit)

/-- Counterexample for C4. The three strategies do not always agree: for
the well-formed column list `[Ewe (code 6), ox/red (code 2), I (code 8)]`
— a bit-field between two numeric columns — and one record of raw bytes
`[0, 1, 2, 3, 4, 5, 6, 7, 8]`, `parseMP` reads the column `I` at offset 4
(bytes `[4, 5, 6, 7]`, the float32 pattern 0x07060504) while the
sequential parse reads it at offset 5 (bytes `[5, 6, 7, 8]`, the distinct
float32 pattern 0x08070605): the parallel strategy's output differs. -/
theorem C4_counterexample_parseMP_diverges :
    resolveColCodes [6, 2, 8] =
      .ok [.numeric "Ewe" 4, .bitfield "ox/red" 2 1, .numeric "I" 4] ∧
    parse [0, 1, 2, 3, 4, 5, 6, 7, 8]
        [.numeric "Ewe" 4, .bitfield "ox/red" 2 1, .numeric "I" 4] 1 0 ≠
      parseMP [0, 1, 2, 3, 4, 5, 6, 7, 8]
        [.numeric "Ewe" 4, .bitfield "ox/red" 2 1, .numeric "I" 4] 1 0 := by
  constructor
  · rfl
  · decide

theorem parseRecordCols_snd (data : List Nat) (flags : Nat) :
    ∀ (cols : List VMPColSpec) (p : Nat),
      (parseRecordCols data flags cols p).2 = p + (cols.map VMPColSpec.byteSize).sum
  | [], p => by simp [parseRecordCols]
  | c :: cs, p => by
    cases c with
    | bitfield name fb fs =>
      simp only [parseRecordCols, List.map_cons, List.sum_cons]
      rw [parseRecordCols_snd data flags cs p]
      simp [VMPColSpec.byteSize]
    | numeric name sz =>
      simp only [parseRecordCols, List.map_cons, List.sum_cons]
      rw [parseRecordCols_snd data flags cs (p + sz)]
      show p + sz + _ = _
      rw [Nat.add_assoc]
      rfl

theorem parseRecordCols_getD (data : List Nat) (flags : Nat) :
    ∀ (cols : List VMPColSpec) (p j : Nat), j < cols.length →
      (parseRecordCols data flags cols p).1.getD j 0 =
        readColSeq data flags (cols.getD j (.numeric "" 0))
          (p + ((cols.take j).map VMPColSpec.byteSize).sum) := by
  intro cols
  induction cols with
  | nil =>
    intro p j hj
    simp at hj
  | cons c cs ih =>
    intro p j hj
    cases j with
    | zero =>
      cases c with
      | bitfield name fb fs => simp [parseRecordCols, readColSeq]
      | numeric name sz => simp [parseRecordCols, readColSeq]
    | succ j2 =>
      have hj2 : j2 < cs.length := by simpa using hj
      cases c with
      | bitfield name fb fs =>
        show (parseRecordCols data flags cs p).1.getD j2 0 = _
        rw [ih p j2 hj2]
        rw [show (VMPColSpec.bitfield name fb fs :: cs).getD (j2 + 1) (.numeric "" 0) =
          cs.getD j2 (.numeric "" 0) from List.getD_cons_succ ..]
        rw [show ((VMPColSpec.bitfield name fb fs :: cs).take (j2 + 1)).map
            VMPColSpec.byteSize = 0 :: (cs.take j2).map VMPColSpec.byteSize from rfl]
        rw [List.sum_cons, Nat.zero_add]
      | numeric name sz =>
        show (parseRecordCols data flags cs (p + sz)).1.getD j2 0 = _
        rw [ih (p + sz) j2 hj2]
        rw [show (VMPColSpec.numeric name sz :: cs).getD (j2 + 1) (.numeric "" 0) =
          cs.getD j2 (.numeric "" 0) from List.getD_cons_succ ..]
        rw [show ((VMPColSpec.numeric name sz :: cs).take (j2 + 1)).map
            VMPColSpec.byteSize = sz :: (cs.take j2).map VMPColSpec.byteSize from rfl]
        rw [List.sum_cons, ← Nat.add_assoc]

theorem cursor_flags_eq (cols : List VMPColSpec) (p : Nat) :
    (if hasFlagsOf cols then p + 1 else p) = p + flagsSize cols := by
  unfold flagsSize
  by_cases h : hasFlagsOf cols = true
  · rw [if_pos h, if_pos h]
  · rw [if_neg h, if_neg h]
    exact (Nat.add_zero p).symm

theorem parseSeqRecords_succ (data : List Nat) (cols : List VMPColSpec) (n p : Nat) :
    parseSeqRecords data cols (n + 1) p =
      (parseRecordCols data (if hasFlagsOf cols then byteAt data p else 0) cols
        (if hasFlagsOf cols then p + 1 else p)).1 ::
      parseSeqRecords data cols n (p + recordStride cols) := by
  show _ :: parseSeqRecords data cols n
      (parseRecordCols data _ cols (if hasFlagsOf cols then p + 1 else p)).2 = _
  refine congrArg _ ?_
  rw [parseRecordCols_snd, cursor_flags_eq]
  unfold recordStride
  rw [Nat.add_assoc]

theorem hasFlags_of_bit (cols : List VMPColSpec) (j : Nat) (hj : j < cols.length)
    (name : String) (fb fs : Nat)
    (hb : cols.getD j (.numeric "" 0) = .bitfield name fb fs) :
    hasFlagsOf cols = true := by
  unfold hasFlagsOf
  rw [List.any_eq_true]
  refine ⟨cols.getD j (.numeric "" 0), ?_, ?_⟩
  · rw [List.getD_eq_getElem?_getD, List.getElem?_eq_getElem hj]
    exact List.getElem_mem hj
  · rw [hb]
    rfl

theorem parse_col_eq_vec_col (data : List Nat) (cols : List VMPColSpec) (j : Nat)
    (hj : j < cols.length) :
    ∀ (n p : Nat),
      (parseSeqRecords data cols n p).map (fun r => r.getD j 0) =
        (List.range n).map (fun i =>
          readColAt data (cols.getD j (.numeric "" 0))
            (p + i * recordStride cols) (vecOffset cols j)) := by
  intro n
  induction n with
  | zero =>
    intro p
    simp [parseSeqRecords]
  | succ m ih =>
    intro p
    rw [parseSeqRecords_succ, List.map_cons, parseRecordCols_getD data _ cols _ j hj,
      ih (p + recordStride cols)]
    rw [List.range_succ_eq_map, List.map_cons, List.map_map]
    refine congrArg₂ List.cons ?_ ?_
    · cases hc : cols.getD j (.numeric "" 0) with
      | bitfield name fb fs =>
        have hf : hasFlagsOf cols = true := hasFlags_of_bit cols j hj name fb fs hc
        simp only [readColSeq, readColAt, hf]
        rw [if_true, Nat.zero_mul, Nat.add_zero]
      | numeric name sz =>
        simp only [readColSeq, readColAt]
        rw [cursor_flags_eq]
        refine congrArg (fun q => leAt data q sz) ?_
        unfold vecOffset
        ring
    · refine congrArg₂ List.map ?_ rfl
      funext i
      simp only [Function.comp, Nat.succ_eq_add_one]
      refine congrArg
        (fun q => readColAt data (cols.getD j (VMPColSpec.numeric "" 0)) q
          (vecOffset cols j)) ?_
      ring

theorem parse_eq_parseVec (data : List Nat) (cols : List VMPColSpec) (N p0 : Nat) :
    parse data cols N p0 = parseVec data cols N p0 := by
  unfold parse parseVec
  apply List.map_congr_left
  intro j hj
  exact parse_col_eq_vec_col data cols j (List.mem_range.mp hj) N p0

theorem getD_replicate_zero_nat (L q : Nat) :
    (List.replicate L (0 : Nat)).getD q 0 = 0 := by
  rw [List.getD_eq_getElem?_getD, List.getElem?_replicate]
  by_cases h : q < L
  · rw [if_pos h]
    rfl
  · rw [if_neg h]
    rfl

theorem getLast_getD_eq_getD : ∀ (l : List Nat) (d : Nat), l ≠ [] →
    l.getLast?.getD d = l.getD (l.length - 1) d
  | [], _, h => absurd rfl h
  | [_], _, _ => rfl
  | x :: y :: ys, d, _ => by
    rw [List.getLast?_cons_cons,
      getLast_getD_eq_getD (y :: ys) d (List.cons_ne_nil y ys)]
    rw [show (x :: y :: ys).length - 1 = ((y :: ys).length - 1) + 1 by
      simp only [List.length_cons]; omega]
    rfl

theorem getLast_getD_replicate_zero (L : Nat) :
    (List.replicate L (0 : Nat)).getLast?.getD 0 = 0 := by
  cases L with
  | zero => rfl
  | succ L2 =>
    rw [getLast_getD_eq_getD _ _
      (by rw [List.replicate_succ]; exact List.cons_ne_nil 0 _)]
    rw [getD_replicate_zero_nat]

theorem sum_byteSize_bits : ∀ (bs : List VMPColSpec), (∀ c ∈ bs, c.isBit = true) →
    (bs.map VMPColSpec.byteSize).sum = 0
  | [], _ => rfl
  | c :: bs, h => by
    cases c with
    | numeric name sz =>
      exact absurd (h _ (List.mem_cons_self ..)) (by simp [VMPColSpec.isBit])
    | bitfield name fb fs =>
      rw [show (VMPColSpec.bitfield name fb fs :: bs).map VMPColSpec.byteSize =
        0 :: bs.map VMPColSpec.byteSize from rfl, List.sum_cons,
        sum_byteSize_bits bs (fun c hc => h c (List.mem_cons_of_mem _ hc))]

theorem sum_take_add_getLastD :
    ∀ (x : Nat) (xs : List Nat),
      (List.take xs.length (x :: xs)).sum + xs.getLastD x = (x :: xs).sum
  | _, [] => by simp
  | x, y :: ys => by
    rw [show List.take (y :: ys).length (x :: y :: ys) =
      x :: List.take ys.length (y :: ys) from rfl]
    rw [List.sum_cons, List.getLastD_cons, Nat.add_assoc,
      sum_take_add_getLastD y ys, List.sum_cons]
    simp

theorem mpOffsetsLoop_skip_bits :
    ∀ (bs rest : List VMPColSpec), (∀ c ∈ bs, c.isBit = true) →
      ∀ (i : Nat) (offs : List Nat) (szPrev : Nat),
        mpOffsetsLoop (bs ++ rest) i offs szPrev =
          mpOffsetsLoop rest (i + bs.length) offs szPrev
  | [], _, _, _, _, _ => rfl
  | c :: bs, rest, h, i, offs, szPrev => by
    cases c with
    | numeric name sz =>
      exact absurd (h _ (List.mem_cons_self ..)) (by simp [VMPColSpec.isBit])
    | bitfield name fb fs =>
      show mpOffsetsLoop (bs ++ rest) (i + 1) offs szPrev = _
      rw [mpOffsetsLoop_skip_bits bs rest (fun c hc => h c (List.mem_cons_of_mem _ hc))
        (i + 1) offs szPrev]
      refine congrArg (fun k => mpOffsetsLoop rest k offs szPrev) ?_
      rw [List.length_cons]
      omega

/-- Invariant of the `blockOffsets` loop over an all-numeric suffix that
starts at a positive index: entries below the index are untouched, entry
`i + t` receives the running offset, and the final `szPrev` is the last
numeric size. -/
theorem mpOffsetsLoop_numeric_spec :
    ∀ (ns : List VMPColSpec), (∀ c ∈ ns, c.isBit = false) →
      ∀ (i : Nat) (offs : List Nat) (szPrev : Nat),
        0 < i → i + ns.length ≤ offs.length →
        (mpOffsetsLoop ns i offs szPrev).1.length = offs.length ∧
        (∀ q, q < i → (mpOffsetsLoop ns i offs szPrev).1.getD q 0 = offs.getD q 0) ∧
        (∀ t, t < ns.length →
          (mpOffsetsLoop ns i offs szPrev).1.getD (i + t) 0 =
            offs.getD (i - 1) 0 + szPrev + ((ns.take t).map VMPColSpec.byteSize).sum) ∧
        (mpOffsetsLoop ns i offs szPrev).2 = (ns.map VMPColSpec.byteSize).getLastD szPrev
  | [], _, i, offs, szPrev, _, _ => by
    refine ⟨rfl, fun q _ => rfl, fun t ht => absurd ht (by simp), rfl⟩
  | c :: ns, h, i, offs, szPrev, hi, hlen => by
    cases c with
    | bitfield name fb fs =>
      exact absurd (h _ (List.mem_cons_self ..)) (by simp [VMPColSpec.isBit])
    | numeric name sz =>
      have hi0 : i ≠ 0 := Nat.pos_iff_ne_zero.mp hi
      have hlen2 : i + (ns.length + 1) ≤ offs.length := by
        rw [List.length_cons] at hlen
        exact hlen
      have hilen : i < offs.length := by omega
      have hstep : mpOffsetsLoop (VMPColSpec.numeric name sz :: ns) i offs szPrev =
          mpOffsetsLoop ns (i + 1) (offs.set i (offs.getD (i - 1) 0 + szPrev)) sz := by
        show mpOffsetsLoop ns (i + 1)
          (offs.set i
            ((if i = 0 then offs.getLast?.getD 0 else offs.getD (i - 1) 0) + szPrev)) sz = _
        rw [if_neg hi0]
      rw [hstep]
      have hlen3 : (i + 1) + ns.length ≤
          (offs.set i (offs.getD (i - 1) 0 + szPrev)).length := by
        rw [List.length_set]
        omega
      obtain ⟨ihlen, ihlow, ihmid, ihsz⟩ :=
        mpOffsetsLoop_numeric_spec ns (fun c hc => h c (List.mem_cons_of_mem _ hc))
          (i + 1) (offs.set i (offs.getD (i - 1) 0 + szPrev)) sz (Nat.succ_pos i) hlen3
      have hself : (offs.set i (offs.getD (i - 1) 0 + szPrev)).getD i 0 =
          offs.getD (i - 1) 0 + szPrev := by
        rw [List.getD_eq_getElem?_getD, List.getElem?_set_self hilen]
        rfl
      have hne : ∀ q : Nat, i ≠ q →
          (offs.set i (offs.getD (i - 1) 0 + szPrev)).getD q 0 = offs.getD q 0 := by
        intro q hq
        rw [List.getD_eq_getElem?_getD, List.getElem?_set_ne hq,
          ← List.getD_eq_getElem?_getD]
      refine ⟨ihlen.trans (List.length_set offs i _), ?_, ?_, ?_⟩
      · intro q hq
        rw [ihlow q (by omega), hne q (by omega)]
      · intro t ht
        cases t with
        | zero =>
          have h0 := ihlow i (Nat.lt_succ_self i)
          rw [hself] at h0
          simpa using h0
        | succ t2 =>
          have ht2 : t2 < ns.length := by
            rw [List.length_cons] at ht
            omega
          rw [show i + (t2 + 1) = i + 1 + t2 by omega]
          rw [ihmid t2 ht2, Nat.add_sub_cancel, hself]
          rw [show ((VMPColSpec.numeric name sz :: ns).take (t2 + 1)).map
              VMPColSpec.byteSize = sz :: (ns.take t2).map VMPColSpec.byteSize from rfl]
          rw [List.sum_cons]
          omega
      · rw [ihsz]
        rw [show (VMPColSpec.numeric name sz :: ns).map VMPColSpec.byteSize =
          sz :: ns.map VMPColSpec.byteSize from rfl]
        rw [List.getLastD_cons]

/-- Assembled form of the loop analysis: when a block of bit-field
columns is followed by a block of numeric columns, every numeric column's
`blockOffsets` entry equals its `record_spec` offset, and the computed
block size equals the record stride. -/
theorem mpLoop_assembled (bs ns : List VMPColSpec)
    (hbits : ∀ c ∈ bs, c.isBit = true) (hnums : ∀ c ∈ ns, c.isBit = false) :
    (∀ j, j < (bs ++ ns).length → ((bs ++ ns).getD j (.numeric "" 0)).isBit = false →
      (mpBlockOffsets (bs ++ ns)).1.getD j 0 = vecOffset (bs ++ ns) j) ∧
    mpDataBlockSize (bs ++ ns) = recordStride (bs ++ ns) := by
  cases ns with
  | nil =>
    rw [List.append_nil]
    have hbs : mpBlockOffsets bs = (List.replicate bs.length (0 : Nat), flagsSize bs) := by
      show mpOffsetsLoop bs 0 (List.replicate bs.length 0) (flagsSize bs) = _
      have hsk := mpOffsetsLoop_skip_bits bs [] hbits 0
        (List.replicate bs.length 0) (flagsSize bs)
      rw [List.append_nil] at hsk
      rw [hsk]
      rfl
    constructor
    · intro j hj hnum
      have hbit : (bs.getD j (.numeric "" 0)).isBit = true := by
        rw [List.getD_eq_getElem?_getD, List.getElem?_eq_getElem hj]
        exact hbits _ (List.getElem_mem hj)
      rw [hbit] at hnum
      exact Bool.noConfusion hnum
    · show (mpBlockOffsets bs).1.getLast?.getD 0 + (mpBlockOffsets bs).2 =
        flagsSize bs + (bs.map VMPColSpec.byteSize).sum
      rw [hbs]
      show (List.replicate bs.length (0 : Nat)).getLast?.getD 0 + flagsSize bs =
        flagsSize bs + (bs.map VMPColSpec.byteSize).sum
      rw [getLast_getD_replicate_zero, sum_byteSize_bits bs hbits]
      omega
  | cons n0 ns2 =>
    cases n0 with
    | bitfield name fb fs =>
      exact absurd (hnums _ (List.mem_cons_self ..)) (by simp [VMPColSpec.isBit])
    | numeric name0 sz0 =>
      have hbL : bs.length < (bs ++ (VMPColSpec.numeric name0 sz0 :: ns2)).length := by
        rw [List.length_append, List.length_cons]
        omega
      have hprev : (if bs.length = 0 then
          (List.replicate (bs ++ (VMPColSpec.numeric name0 sz0 :: ns2)).length
            (0 : Nat)).getLast?.getD 0
        else
          (List.replicate (bs ++ (VMPColSpec.numeric name0 sz0 :: ns2)).length
            (0 : Nat)).getD (bs.length - 1) 0) = 0 := by
        by_cases hb : bs.length = 0
        · rw [if_pos hb, getLast_getD_replicate_zero]
        · rw [if_neg hb, getD_replicate_zero_nat]
      have hstep2 : mpOffsetsLoop (VMPColSpec.numeric name0 sz0 :: ns2) bs.length
          (List.replicate (bs ++ (VMPColSpec.numeric name0 sz0 :: ns2)).length 0)
          (flagsSize (bs ++ (VMPColSpec.numeric name0 sz0 :: ns2))) =
          mpOffsetsLoop ns2 (bs.length + 1)
            ((List.replicate (bs ++ (VMPColSpec.numeric name0 sz0 :: ns2)).length 0).set
              bs.length (flagsSize (bs ++ (VMPColSpec.numeric name0 sz0 :: ns2)))) sz0 := by
        show mpOffsetsLoop ns2 (bs.length + 1)
          ((List.replicate (bs ++ (VMPColSpec.numeric name0 sz0 :: ns2)).length 0).set
            bs.length
            ((if bs.length = 0 then
                (List.replicate (bs ++ (VMPColSpec.numeric name0 sz0 :: ns2)).length
                  (0 : Nat)).getLast?.getD 0
              else
                (List.replicate (bs ++ (VMPColSpec.numeric name0 sz0 :: ns2)).length
                  (0 : Nat)).getD (bs.length - 1) 0) +
              flagsSize (bs ++ (VMPColSpec.numeric name0 sz0 :: ns2)))) sz0 = _
        rw [hprev, Nat.zero_add]
      have hR : mpBlockOffsets (bs ++ (VMPColSpec.numeric name0 sz0 :: ns2)) =
          mpOffsetsLoop ns2 (bs.length + 1)
            ((List.replicate (bs ++ (VMPColSpec.numeric name0 sz0 :: ns2)).length 0).set
              bs.length (flagsSize (bs ++ (VMPColSpec.numeric name0 sz0 :: ns2)))) sz0 := by
        show mpOffsetsLoop (bs ++ (VMPColSpec.numeric name0 sz0 :: ns2)) 0
          (List.replicate (bs ++ (VMPColSpec.numeric name0 sz0 :: ns2)).length 0)
          (flagsSize (bs ++ (VMPColSpec.numeric name0 sz0 :: ns2))) = _
        rw [mpOffsetsLoop_skip_bits bs (VMPColSpec.numeric name0 sz0 :: ns2) hbits 0
          (List.replicate (bs ++ (VMPColSpec.numeric name0 sz0 :: ns2)).length 0)
          (flagsSize (bs ++ (VMPColSpec.numeric name0 sz0 :: ns2))), Nat.zero_add, hstep2]
      have hselfF : ((List.replicate (bs ++ (VMPColSpec.numeric name0 sz0 :: ns2)).length
          (0 : Nat)).set bs.length
          (flagsSize (bs ++ (VMPColSpec.numeric name0 sz0 :: ns2)))).getD bs.length 0 =
          flagsSize (bs ++ (VMPColSpec.numeric name0 sz0 :: ns2)) := by
        rw [List.getD_eq_getElem?_getD,
          List.getElem?_set_self (by rw [List.length_replicate]; exact hbL)]
        rfl
      have hlenS : (bs.length + 1) + ns2.length ≤
          ((List.replicate (bs ++ (VMPColSpec.numeric name0 sz0 :: ns2)).length
            (0 : Nat)).set bs.length
            (flagsSize (bs ++ (VMPColSpec.numeric name0 sz0 :: ns2)))).length := by
        rw [List.length_set, List.length_replicate, List.length_append, List.length_cons]
        omega
      obtain ⟨slen, slow, smid, ssz⟩ :=
        mpOffsetsLoop_numeric_spec ns2 (fun c hc => hnums c (List.mem_cons_of_mem _ hc))
          (bs.length + 1)
          ((List.replicate (bs ++ (VMPColSpec.numeric name0 sz0 :: ns2)).length 0).set
            bs.length (flagsSize (bs ++ (VMPColSpec.numeric name0 sz0 :: ns2)))) sz0
          (Nat.succ_pos bs.length) hlenS
      constructor
      · intro j hj hnum
        have hble : bs.length ≤ j := by
          by_contra hlt
          push_neg at hlt
          have hgd : (bs ++ (VMPColSpec.numeric name0 sz0 :: ns2)).getD j (.numeric "" 0) =
              bs.getD j (.numeric "" 0) := by
            rw [List.getD_eq_getElem?_getD, List.getElem?_append_left hlt,
              ← List.getD_eq_getElem?_getD]
          have hbit : (bs.getD j (.numeric "" 0)).isBit = true := by
            rw [List.getD_eq_getElem?_getD, List.getElem?_eq_getElem hlt]
            exact hbits _ (List.getElem_mem hlt)
          rw [hgd, hbit] at hnum
          exact Bool.noConfusion hnum
        obtain ⟨t, rfl⟩ : ∃ t, j = bs.length + t := ⟨j - bs.length, by omega⟩
        rw [hR]
        unfold vecOffset
        cases t with
        | zero =>
          show (mpOffsetsLoop ns2 (bs.length + 1)
              ((List.replicate (bs ++ (VMPColSpec.numeric name0 sz0 :: ns2)).length 0).set
                bs.length (flagsSize (bs ++ (VMPColSpec.numeric name0 sz0 :: ns2))))
              sz0).1.getD bs.length 0 =
            flagsSize (bs ++ (VMPColSpec.numeric name0 sz0 :: ns2)) +
              (List.map VMPColSpec.byteSize
                (List.take bs.length (bs ++ (VMPColSpec.numeric name0 sz0 :: ns2)))).sum
          rw [List.take_left, sum_byteSize_bits bs hbits]
          rw [slow bs.length (Nat.lt_succ_self bs.length), hselfF]
          omega
        | succ t2 =>
          have ht2 : t2 < ns2.length := by
            rw [List.length_append, List.length_cons] at hj
            omega
          rw [List.take_append, List.map_append, List.sum_append,
            sum_byteSize_bits bs hbits,
            show ((VMPColSpec.numeric name0 sz0 :: ns2).take (t2 + 1)).map
              VMPColSpec.byteSize = sz0 :: (ns2.take t2).map VMPColSpec.byteSize from rfl,
            List.sum_cons]
          rw [show bs.length + (t2 + 1) = bs.length + 1 + t2 by omega]
          rw [smid t2 ht2, Nat.add_sub_cancel, hselfF]
          omega
      · unfold mpDataBlockSize recordStride
        rw [hR]
        cases ns2 with
        | nil =>
          show ((List.replicate (bs ++ [VMPColSpec.numeric name0 sz0]).length
              (0 : Nat)).set bs.length
              (flagsSize (bs ++ [VMPColSpec.numeric name0 sz0]))).getLast?.getD 0 + sz0 =
            flagsSize (bs ++ [VMPColSpec.numeric name0 sz0]) +
              ((bs ++ [VMPColSpec.numeric name0 sz0]).map VMPColSpec.byteSize).sum
          have hZlen : ((List.replicate (bs ++ [VMPColSpec.numeric name0 sz0]).length
              (0 : Nat)).set bs.length
              (flagsSize (bs ++ [VMPColSpec.numeric name0 sz0]))).length =
              bs.length + 1 := by
            rw [List.length_set, List.length_replicate, List.length_append,
              List.length_cons, List.length_nil]
          have hZne : ((List.replicate (bs ++ [VMPColSpec.numeric name0 sz0]).length
              (0 : Nat)).set bs.length
              (flagsSize (bs ++ [VMPColSpec.numeric name0 sz0]))) ≠ [] := by
            intro hnil
            rw [hnil, List.length_nil] at hZlen
            omega
          rw [getLast_getD_eq_getD _ 0 hZne, hZlen, Nat.add_sub_cancel, hselfF]
          rw [List.map_append, List.sum_append, sum_byteSize_bits bs hbits,
            show [VMPColSpec.numeric name0 sz0].map VMPColSpec.byteSize =
              [sz0] from rfl,
            show List.sum [sz0] = sz0 + 0 from rfl]
          omega
        | cons m0 ms =>
          have hRlen : (mpOffsetsLoop (m0 :: ms) (bs.length + 1)
              ((List.replicate
                (bs ++ (VMPColSpec.numeric name0 sz0 :: m0 :: ms)).length 0).set
                bs.length
                (flagsSize (bs ++ (VMPColSpec.numeric name0 sz0 :: m0 :: ms)))) sz0).1.length =
              bs.length + ms.length + 2 := by
            rw [slen, List.length_set, List.length_replicate, List.length_append,
              List.length_cons, List.length_cons]
            omega
          have hRne : (mpOffsetsLoop (m0 :: ms) (bs.length + 1)
              ((List.replicate
                (bs ++ (VMPColSpec.numeric name0 sz0 :: m0 :: ms)).length 0).set
                bs.length
                (flagsSize (bs ++ (VMPColSpec.numeric name0 sz0 :: m0 :: ms)))) sz0).1 ≠ [] := by
            intro hnil
            rw [hnil, List.length_nil] at hRlen
            omega
          rw [getLast_getD_eq_getD _ 0 hRne, hRlen,
            show bs.length + ms.length + 2 - 1 = bs.length + 1 + ms.length by omega,
            smid ms.length (by rw [List.length_cons]; omega),
            Nat.add_sub_cancel, hselfF, ssz]
          have hS : (((m0 :: ms).take ms.length).map VMPColSpec.byteSize).sum =
              (List.take (ms.map VMPColSpec.byteSize).length
                (VMPColSpec.byteSize m0 :: ms.map VMPColSpec.byteSize)).sum := by
            rw [List.map_take,
              show (m0 :: ms).map VMPColSpec.byteSize =
                VMPColSpec.byteSize m0 :: ms.map VMPColSpec.byteSize from rfl,
              List.length_map]
          have hG : ((m0 :: ms).map VMPColSpec.byteSize).getLastD sz0 =
              (ms.map VMPColSpec.byteSize).getLastD (VMPColSpec.byteSize m0) := by
            rw [show (m0 :: ms).map VMPColSpec.byteSize =
              VMPColSpec.byteSize m0 :: ms.map VMPColSpec.byteSize from rfl,
              List.getLastD_cons]
          have hsum := sum_take_add_getLastD (VMPColSpec.byteSize m0)
            (ms.map VMPColSpec.byteSize)
          rw [List.sum_cons] at hsum
          have hRHS : ((bs ++ (VMPColSpec.numeric name0 sz0 :: m0 :: ms)).map
              VMPColSpec.byteSize).sum =
              sz0 + (VMPColSpec.byteSize m0 + (ms.map VMPColSpec.byteSize).sum) := by
            rw [List.map_append, List.sum_append, sum_byteSize_bits bs hbits,
              show (VMPColSpec.numeric name0 sz0 :: m0 :: ms).map VMPColSpec.byteSize =
                sz0 :: VMPColSpec.byteSize m0 :: ms.map VMPColSpec.byteSize from rfl,
              List.sum_cons, List.sum_cons]
            omega
          rw [hS, hG, hRHS]
          omega

/-- Under the bits-first layout hypothesis, every numeric column's
`blockOffsets` entry equals its `record_spec` offset and the parallel
block size equals the record stride. -/
theorem mpBlockOffsets_bitsFirst (cols : List VMPColSpec)
    (hbf : bitsFirst cols = true) :
    (∀ j, j < cols.length → ((cols.getD j (.numeric "" 0)).isBit = false) →
      (mpBlockOffsets cols).1.getD j 0 = vecOffset cols j) ∧
    mpDataBlockSize cols = recordStride cols := by
  have hbits : ∀ c ∈ cols.takeWhile VMPColSpec.isBit, c.isBit = true :=
    fun _ hc => List.mem_takeWhile_imp hc
  have hnums : ∀ c ∈ cols.dropWhile VMPColSpec.isBit, c.isBit = false := by
    intro c hc
    have h2 : (fun c => !c.isBit) c = true := List.all_eq_true.mp hbf c hc
    simp only [Bool.not_eq_true'] at h2
    exact h2
  have hmain := mpLoop_assembled (cols.takeWhile VMPColSpec.isBit)
    (cols.dropWhile VMPColSpec.isBit) hbits hnums
  rwa [List.takeWhile_append_dropWhile] at hmain

/-- Claim C4 (amended): the sequential record-by-record parse and the
bulk fixed-stride reinterpretation always agree, and all three strategies
(including the parallel one) agree whenever every bit-field column
precedes every numeric column, which is the layout of the real VMP column
lists; the separate counterexample shows the parallel strategy mis-places
numeric columns when a bit-field sits between numeric columns. -/
theorem C4_strategies_agree_when_bitfields_first (data : List Nat)
    (cols : List VMPColSpec) (N p0 : Nat) (hbf : bitsFirst cols = true) :
    parse data cols N p0 = parseVec data cols N p0 ∧
    parseVec data cols N p0 = parseMP data cols N p0 := by
  obtain ⟨hoffs, hsize⟩ := mpBlockOffsets_bitsFirst cols hbf
  refine ⟨parse_eq_parseVec data cols N p0, ?_⟩
  unfold parseVec parseMP
  apply List.map_congr_left
  intro j hj
  apply List.map_congr_left
  intro i _
  cases hc : cols.getD j (.numeric "" 0) with
  | bitfield name fb fs =>
    simp only [readColAt]
    rw [hsize]
  | numeric name sz =>
    simp only [readColAt]
    rw [hsize, hoffs j (List.mem_range.mp hj) (by rw [hc]; rfl)]

/-- Witness for C4: the two-column layout with the bit-field `mode`
followed by the numeric `Ewe` satisfies the bits-first hypothesis, and on
two records of concrete bytes all three strategies agree. -/
theorem C4_witness :
    bitsFirst [VMPColSpec.bitfield "mode" 0 2, VMPColSpec.numeric "Ewe" 4] = true ∧
    (parse [1, 2, 3, 4, 5, 6, 7, 8, 9, 10]
        [VMPColSpec.bitfield "mode" 0 2, VMPColSpec.numeric "Ewe" 4] 2 0 =
      parseVec [1, 2, 3, 4, 5, 6, 7, 8, 9, 10]
        [VMPColSpec.bitfield "mode" 0 2, VMPColSpec.numeric "Ewe" 4] 2 0 ∧
    parseVec [1, 2, 3, 4, 5, 6, 7, 8, 9, 10]
        [VMPColSpec.bitfield "mode" 0 2, VMPColSpec.numeric "Ewe" 4] 2 0 =
      parseMP [1, 2, 3, 4, 5, 6, 7, 8, 9, 10]
        [VMPColSpec.bitfield "mode" 0 2, VMPColSpec.numeric "Ewe" 4] 2 0) :=
  ⟨by decide, C4_strategies_agree_when_bitfields_first [1, 2, 3, 4, 5, 6, 7, 8, 9, 10]
    [VMPColSpec.bitfield "mode" 0 2, VMPColSpec.numeric "Ewe" 4] 2 0 (by decide)⟩

end FFPE
